import Mathlib

/-!
Verification development for the Torboxed job-lifecycle worker
(`torboxed/downloader.py`, `torboxed/main.py`, `torboxed/torbox_client.py`,
`torboxed/db.py`).

Shallow embedding conventions:
* A `Download` row is modelled by `Job`; the SQLite store holds at most the one
  row under consideration, as `Option Job` (`none` models an externally deleted
  row, which the worker must tolerate).
* Each `with SessionLocal()` block in the Python source is one atomic
  read-modify-write on that `Option Job`; between any two such blocks (i.e. at
  every `await` suspension point of the single-threaded event loop) the
  external environment may run one action: nothing, the `cancel_download`
  endpoint, or the `delete_download` endpoint.  Environment actions are
  supplied as a schedule `List EnvAct`, consumed one per checkpoint.
* Network responses, clock readings and filesystem probes are inputs (oracle
  fields in the `*Ctx` structures); the control flow acting on them is
  transcribed from the source.
* Python string truthiness (`if s:` is false for `None` and `""`) is modelled
  by `optStrTruthy`.
* Machine integers: `progress` is an `Int` (SQLite INTEGER); sizes are `Nat`.
-/

/-- Job status, `db.py` `Download.status`
(`queued|submitting|submitted|downloading|completed|failed|cancelled`). -/
inductive Status
  | queued | submitting | submitted | downloading | completed | failed | cancelled
deriving DecidableEq, Repr

/-- `Download.source_type`: `"torrent" | "nzb"`. -/
inductive SourceType
  | torrent | nzb
deriving DecidableEq, Repr

/-- One `downloads` row (`db.py` `Download`), restricted to the fields the
worker reads or writes.  Timestamps are omitted (no claim concerns them). -/
structure Job where
  id : Nat
  filename : String
  source_type : SourceType
  category : Option String
  status : Status
  progress : Int
  current_speed_bps : Option Int
  torbox_ref : Option String
  torbox_download_url : Option String
  local_path : Option String
  error : Option String
deriving DecidableEq, Repr

/-- A filesystem path: directory components plus final name.  `str(path)`
is modelled by `FPath.render`. -/
structure FPath where
  dir : List String
  name : String
deriving DecidableEq, Repr

def FPath.render (p : FPath) : String :=
  String.intercalate "/" (p.dir ++ [p.name])

/-- Python truthiness for an optional string: `None` and `""` are falsy. -/
def optStrTruthy : Option String → Option String
  | some s => if s = "" then none else some s
  | none => none

/-- The characters replaced by `_` in `re.sub(r'[<>:"/\\|?*]', '_', filename)`
(`downloader.py` filename sanitisation). -/
def reservedChar (c : Char) : Bool :=
  c = '<' || c = '>' || c = ':' || c = '"' || c = '/' || c = '\\' ||
  c = '|' || c = '?' || c = '*'

def sanitizeFilename (s : String) : String :=
  String.mk (s.data.map (fun c => if reservedChar c then '_' else c))

/-- Python `str.lower()` (the names compared by this code are ASCII). -/
def pyLower (s : String) : String :=
  String.mk (s.data.map Char.toLower)

/-- Python `str.startswith(".")`. -/
def startsDot (s : String) : Bool :=
  s.data.head? = some '.'

/-- `pathlib.PurePath` stem/suffix split of a final path component: the split
is at the last dot, except when there is no dot, the dot is leading, or the
dot is trailing (then the suffix is empty). -/
def pyNameSplit (name : String) : String × String :=
  let cs := name.toList
  let tail := cs.reverse.takeWhile (fun c => c ≠ '.')
  if tail.length + 1 ≥ cs.length ∨ tail.length = 0 then (name, "")
  else
    let i := cs.length - tail.length - 1
    (String.mk (cs.take i), String.mk (cs.drop i))

def pyStem (name : String) : String := (pyNameSplit name).1

def pySuffix (name : String) : String := (pyNameSplit name).2

/-- Fresh job creation (`main.py` `upload_download` and the blackhole scanner
both construct `Download(..., status="queued", progress=0)`). -/
def newJob (id : Nat) (filename : String) (st : SourceType) (category : Option String) : Job :=
  { id := id, filename := filename, source_type := st, category := category,
    status := .queued, progress := 0, current_speed_bps := none,
    torbox_ref := none, torbox_download_url := none, local_path := none, error := none }

/-- `main.py` `cancel_download`: rows in `completed`/`failed` are left alone,
anything else is set to `cancelled`.  A missing row gives a 404 (no write). -/
def cancelDownload : Option Job → Option Job
  | none => none
  | some d =>
    if d.status = .completed ∨ d.status = .failed then some d
    else some { d with status := .cancelled }

/-- One environment action taken between two worker transactions: nothing,
the cancel endpoint, or the delete endpoint (row removal). -/
inductive EnvAct
  | skip | cancel | delete
deriving DecidableEq, Repr

def applyEnv : EnvAct → Option Job → Option Job
  | .skip, db => db
  | .cancel, db => cancelDownload db
  | .delete, _ => none

def statusOf : Option Job → Option Status
  | none => none
  | some j => some j.status

/-- Global system state threaded through the worker: the store row, the
pending environment schedule, the trace of row snapshots (for the state
machine claims), and effect counters (provider calls consumed under the rate
limiter, file chunks written, the rename target of the finished temp file,
whether a zip artifact was deleted, and the chunk count at the moment an
external cancellation first became visible in the store). -/
structure Sys where
  db : Option Job
  env : List EnvAct
  trace : List (Option Job)
  providerCalls : Nat
  written : Nat
  renamedTo : Option FPath
  zipDeleted : Bool
  writtenAtCancel : Option Nat
deriving Repr

def initSys (j : Job) (env : List EnvAct) : Sys :=
  { db := some j, env := env, trace := [some j], providerCalls := 0,
    written := 0, renamedTo := none, zipDeleted := false, writtenAtCancel := none }

/-- Specification observer: record how many chunks had been written when a
cancellation first became visible in the store.  Does not influence the
modelled program. -/
def observe (s : Sys) : Sys :=
  if s.writtenAtCancel = none ∧ statusOf s.db = some .cancelled then
    { s with writtenAtCancel := some s.written }
  else s

/-- A suspension point: the environment runs its next scheduled action (if
any) against the store; the resulting row state is recorded in the trace. -/
def checkpoint (s : Sys) : Sys :=
  match s.env with
  | [] => s
  | a :: rest =>
    let db := applyEnv a s.db
    observe { s with db := db, env := rest, trace := s.trace ++ [db] }

/-- One atomic worker transaction against the store. -/
def txn (f : Option Job → Option Job) (s : Sys) : Sys :=
  let db := f s.db
  observe { s with db := db, trace := s.trace ++ [db] }

def bumpCalls (s : Sys) : Sys := { s with providerCalls := s.providerCalls + 1 }

/-- Errors raised inside the per-job processing (`RuntimeError`s and
propagated HTTP errors); all are caught at job granularity in
`_process_one`. -/
inductive WErr
  | confErr | missingContent | providerErr (m : String) | cancelledErr | httpErr (m : String)
deriving DecidableEq, Repr

/-- `f"{type(e).__name__}: {e}"` as recorded into `Download.error`. -/
def errMsg : WErr → String
  | .confErr => "RuntimeError: Torbox API key not configured"
  | .missingContent => "RuntimeError: Upload content missing on server"
  | .providerErr m => "RuntimeError: " ++ m
  | .cancelledErr => "RuntimeError: Cancelled"
  | .httpErr m => m

/-! ### `_ensure_submitted` (downloader.py lines 89-131) -/

/-- Oracle inputs of the submission phase: whether an API key is configured,
whether the `upload_path:{id}` file is present and readable, and the provider
`submit_file` outcome (reference id, or a `TorboxError` message). -/
structure SubmitCtx where
  apiKey : Bool
  uploadOk : Bool
  submitRes : Except String String
deriving Repr

inductive SubTxn1Out
  | ret | raiseConf | raiseMissing | proceed
deriving DecidableEq, Repr

/-- First session of `_ensure_submitted`: early returns, the idempotent
`submitting -> submitted` advance when a `torbox_ref` already exists, the
configuration and upload-content checks. -/
def subTxn1 (ctx : SubmitCtx) : Option Job → Option Job × SubTxn1Out
  | none => (none, .ret)
  | some item =>
    if item.status = .completed ∨ item.status = .cancelled then (some item, .ret)
    else if (optStrTruthy item.torbox_ref).isSome then
      if item.status = .submitting then
        (some { item with status := .submitted }, .ret)
      else (some item, .ret)
    else if ¬ ctx.apiKey then (some item, .raiseConf)
    else if ¬ ctx.uploadOk then (some item, .raiseMissing)
    else (some item, .proceed)

/-- Second session of `_ensure_submitted`: record the provider reference and
advance to `submitted` with progress at least 5, unless the row vanished or
reached `completed`/`cancelled` meanwhile. -/
def subTxn2 (ref : String) : Option Job → Option Job
  | none => none
  | some it =>
    if it.status = .completed ∨ it.status = .cancelled then some it
    else some { it with torbox_ref := some ref, status := .submitted,
                        progress := max it.progress 5 }

def ensureSubmitted (ctx : SubmitCtx) (s0 : Sys) : Sys × Except WErr Unit :=
  let s1 := checkpoint s0
  let out := (subTxn1 ctx s1.db).2
  let s2 := txn (fun db => (subTxn1 ctx db).1) s1
  match out with
  | .ret => (s2, .ok ())
  | .raiseConf => (s2, .error .confErr)
  | .raiseMissing => (s2, .error .missingContent)
  | .proceed =>
    match ctx.submitRes with
    | .error m => (bumpCalls s2, .error (.providerErr m))
    | .ok ref =>
      let s3 := checkpoint (bumpCalls s2)
      (txn (subTxn2 ref) s3, .ok ())

/-! ### `_ensure_downloaded` (downloader.py lines 133-222) -/

/-- Normalised `TorboxStatusResult` consumed by the worker's poll loop. -/
structure PollResp where
  is_ready : Bool
  download_url : Option String
  progress : Option Int
deriving DecidableEq, Repr

/-- Per-chunk oracle data of the streaming loop: the chunk's byte count, the
clock decision `now - last_update > 0.5` and the clock-derived
`int(got/elapsed)` sample. -/
structure Chunk where
  size : Nat
  tick : Bool
  speed : Int
deriving DecidableEq, Repr

/-- One top-level entry of the extraction directory (`extract_dir.iterdir()`). -/
structure ZEntry where
  name : String
  isFile : Bool
deriving DecidableEq, Repr

/-- Zip post-processing oracle: the `zipfile.is_zipfile` sniff and the outcome
of `extractall` (+ `iterdir`), `Except.error` modelling an extraction
exception. -/
structure ZipCtx where
  isZipMagic : Bool
  extract : Except Unit (List ZEntry)
deriving Repr

/-- Oracle inputs of `_download_stream`: whether the GET passed
`raise_for_status`, the `content-length` header (0 when absent), the filename
captured by the content-disposition regex (before sanitisation), the chunk
sequence, and the zip post-processing outcome. -/
structure StreamCtx where
  httpOk : Bool
  total : Nat
  cdName : Option String
  chunks : List Chunk
  zip : ZipCtx
deriving Repr

/-- Oracle inputs of `_ensure_downloaded`: configuration presence, the
`os.path.exists(item.local_path)` probe, the per-iteration `get_status`
outcomes, the resolved download folder, the `_get_download_filename` result
and the streaming oracle. -/
structure DlCtx where
  apiKey : Bool
  localPathExists : Bool
  polls : List (Except String PollResp)
  downloadRoot : List String
  resolvedName : String
  stream : StreamCtx
deriving Repr

inductive DlTxn1Out
  | ret
  | raiseConf
  | proceed (ref : String) (category : Option String) (filename : String)
deriving DecidableEq, Repr

/-- First session of `_ensure_downloaded`: early returns, the resume shortcut
(`torbox_download_url` and an existing `local_path` present -> `completed`
with progress 100), the configuration check and the `torbox_ref` check. -/
def dlTxn1 (ctx : DlCtx) : Option Job → Option Job × DlTxn1Out
  | none => (none, .ret)
  | some item =>
    if item.status = .completed ∨ item.status = .cancelled then (some item, .ret)
    else if (optStrTruthy item.torbox_download_url).isSome ∧
            (optStrTruthy item.local_path).isSome ∧ ctx.localPathExists then
      (some { item with status := .completed, progress := 100 }, .ret)
    else if ¬ ctx.apiKey then (some item, .raiseConf)
    else
      match optStrTruthy item.torbox_ref with
      | none => (some item, .ret)
      | some r => (some item, .proceed r item.category item.filename)

/-- Progress write of a not-ready poll iteration (downloader.py lines
167-173): `it.progress = min(95, max(it.progress, int(st.progress)))`,
guarded on live status `submitted`/`downloading`. -/
def pollTxnB (rep : Int) : Option Job → Option Job
  | none => none
  | some it =>
    if it.status = .submitted ∨ it.status = .downloading then
      some { it with progress := min 95 (max it.progress rep) }
    else some it

inductive PollOut
  | url (u : String) | timeout | aborted | raised (m : String)
deriving DecidableEq, Repr

/-- The poll loop (`for _ in range(60)`): per iteration, a live-status
cancellation check, one rate-limited `get_status` call, the ready test on
`st.is_ready and st.download_url`, and the progress write. -/
def pollLoop : List (Except String PollResp) → Sys → Sys × PollOut
  | [], s => (s, .timeout)
  | p :: rest, s =>
    let s1 := checkpoint s
    match statusOf s1.db with
    | none => (s1, .aborted)
    | some st =>
      if st = .cancelled then (s1, .aborted)
      else
        let s2 := bumpCalls s1
        match p with
        | .error m => (s2, .raised m)
        | .ok r =>
          match r.is_ready, optStrTruthy r.download_url with
          | true, some u => (s2, .url u)
          | _, _ =>
            match r.progress with
            | some rep => pollLoop rest (txn (pollTxnB rep) (checkpoint s2))
            | none => pollLoop rest s2

/-- Transition to `downloading` once a URL is obtained (downloader.py lines
180-188); the `Bool` records whether the guard passed (on failure
`_ensure_downloaded` returns). -/
def dlTxn2 (u : String) : Option Job → Option Job × Bool
  | none => (none, false)
  | some it =>
    if it.status = .completed ∨ it.status = .cancelled then (some it, false)
    else (some { it with torbox_download_url := some u, status := .downloading,
                         progress := max it.progress 10 }, true)

/-- Mid-stream progress/speed write (downloader.py lines 420-429), guarded on
live status `downloading`. -/
def streamTxnD (pct : Option Int) (speed : Int) : Option Job → Option Job
  | none => none
  | some it =>
    if it.status = .downloading then
      let it1 := match pct with
        | some p => { it with progress := min 99 (max it.progress p) }
        | none => it
      some { it1 with current_speed_bps := some speed }
    else some it

/-- `it.current_speed_bps = None` after the rename (downloader.py lines
433-439); unguarded apart from row presence. -/
def clearSpeed : Option Job → Option Job
  | none => none
  | some it => some { it with current_speed_bps := none }

/-- The chunk loop of `_download_stream`: per chunk, a live-status
cancellation re-check (raising `RuntimeError("Cancelled")`), the empty-chunk
skip, the file write, the progress computation
`10 + int((got/total)*89)` (float truncation modelled by Nat division; no
claim depends on the exact value) and the throttled store write. -/
def streamLoop : List Chunk → Nat → Nat → Sys → Sys × Except WErr Nat
  | [], _total, got, s => (s, .ok got)
  | c :: rest, total, got, s =>
    let s1 := checkpoint s
    match statusOf s1.db with
    | none => (s1, .error .cancelledErr)
    | some st =>
      if st = .cancelled then (s1, .error .cancelledErr)
      else if c.size = 0 then streamLoop rest total got s1
      else
        let s2 := { s1 with written := s1.written + 1 }
        let got1 := got + c.size
        let pct : Option Int :=
          if total > 0 then some (Int.ofNat (10 + got1 * 89 / total)) else none
        let s3 := if c.tick then txn (streamTxnD pct c.speed) (checkpoint s2) else s2
        streamLoop rest total got1 s3

/-- Zip post-processing (downloader.py lines 441-467): if the artifact looks
like a zip (by suffix or magic), extract into a sibling directory named after
the stem, delete the archive, and pick the single extracted file when the
directory holds exactly one plain file, else the directory; on extraction
failure keep the archive as the artifact. -/
def postProcessZip (z : ZipCtx) (outPath : FPath) (s : Sys) : FPath × Sys :=
  if pyLower (pySuffix outPath.name) = ".zip" ∨ z.isZipMagic then
    match z.extract with
    | .error _ => (outPath, s)
    | .ok entries =>
      let stem := pyStem outPath.name
      let s1 := { s with zipDeleted := true }
      match entries with
      | [e] =>
        if e.isFile then ({ dir := outPath.dir ++ [stem], name := e.name }, s1)
        else ({ dir := outPath.dir, name := stem }, s1)
      | _ => ({ dir := outPath.dir, name := stem }, s1)
  else (outPath, s)

/-- `_download_stream` (downloader.py lines 367-467): the GET status check,
the content-disposition override of the output name (sanitised; applied when
non-empty and different from the current name), the chunk loop, the rename of
the temp file, the speed clear, and zip post-processing. -/
def downloadStream (ctx : StreamCtx) (outPath0 : FPath) (s : Sys) : Sys × Except WErr FPath :=
  if ¬ ctx.httpOk then (s, .error (.httpErr "HTTPStatusError")) else
  let outPath :=
    match ctx.cdName with
    | some raw =>
      let nm := sanitizeFilename raw
      if nm ≠ "" ∧ nm ≠ outPath0.name then { dir := outPath0.dir, name := nm }
      else outPath0
    | none => outPath0
  match streamLoop ctx.chunks ctx.total 0 s with
  | (s1, .error e) => (s1, .error e)
  | (s1, .ok _got) =>
    let s2 := { s1 with renamedTo := some outPath }
    let s3 := txn clearSpeed (checkpoint s2)
    let (fp, s4) := postProcessZip ctx.zip outPath s3
    (s4, .ok fp)

/-- Completion write (downloader.py lines 208-216). -/
def dlTxn4 (fp : FPath) : Option Job → Option Job
  | none => none
  | some it =>
    if it.status = .completed ∨ it.status = .cancelled then some it
    else some { it with local_path := some fp.render, status := .completed,
                        progress := 100 }

def ensureDownloaded (ctx : DlCtx) (id : Nat) (s0 : Sys) : Sys × Except WErr Unit :=
  let s1 := checkpoint s0
  let out := (dlTxn1 ctx s1.db).2
  let s2 := txn (fun db => (dlTxn1 ctx db).1) s1
  match out with
  | .ret => (s2, .ok ())
  | .raiseConf => (s2, .error .confErr)
  | .proceed _ref category _filename =>
    match pollLoop (ctx.polls.take 60) s2 with
    | (s3, .aborted) => (s3, .ok ())
    | (s3, .raised m) => (s3, .error (.httpErr m))
    | (s3, .timeout) => (s3, .ok ())
    | (s3, .url u) =>
      let s4 := checkpoint s3
      let g := (dlTxn2 u s4.db).2
      let s5 := txn (fun db => (dlTxn2 u db).1) s4
      if ¬ g then (s5, .ok ())
      else
        let outDir := ctx.downloadRoot ++ (match category with
          | some c => if c = "" then [] else [pyLower c]
          | none => [])
        let outPath : FPath := { dir := outDir, name := toString id ++ "_" ++ ctx.resolvedName }
        match downloadStream ctx.stream outPath s5 with
        | (s6, .error e) => (s6, .error e)
        | (s6, .ok finalPath) =>
          let s7 := checkpoint s6
          let s8 := txn (dlTxn4 finalPath) s7
          (s8, .ok ())

/-! ### `_process_one` (downloader.py lines 59-87) -/

/-- The pick/claim session: the next `queued`/`submitted` row is selected; a
`queued` row is atomically flipped to `submitting`.  The returned id is
`none` when nothing is eligible. -/
def pickTxn : Option Job → Option Job × Option Nat
  | none => (none, none)
  | some item =>
    if item.status = .queued then (some { item with status := .submitting }, some item.id)
    else if item.status = .submitted then (some item, some item.id)
    else (some item, none)

/-- The job-granularity exception handler (downloader.py lines 79-87): the
live status is re-read and `failed` plus the error text are written unless
the row vanished or already reached `completed`/`cancelled`. -/
def failTxn (msg : String) : Option Job → Option Job
  | none => none
  | some it =>
    if it.status = .completed ∨ it.status = .cancelled then some it
    else some { it with status := .failed, error := some msg }

def handleFail (e : WErr) (s : Sys) : Sys :=
  txn (failTxn (errMsg e)) (checkpoint s)

def processOne (cs : SubmitCtx) (cd : DlCtx) (s0 : Sys) : Sys :=
  let s1 := checkpoint s0
  let pk := (pickTxn s1.db).2
  let s2 := txn (fun db => (pickTxn db).1) s1
  match pk with
  | none => s2
  | some id =>
    match ensureSubmitted cs s2 with
    | (s3, .error e) => handleFail e s3
    | (s3, .ok _) =>
      match ensureDownloaded cd id s3 with
      | (s4, .error e) => handleFail e s4
      | (s4, .ok _) => s4

/-- Iterated scheduler ticks of `_run_loop` (each tick also performs a
blackhole scan, modelled separately since it only creates fresh rows). -/
def runWorker : List (SubmitCtx × DlCtx) → Sys → Sys
  | [], s => s
  | (cs, cd) :: rest, s => runWorker rest (processOne cs cd s)

/-! ### `TorboxClient.get_status` (torbox_client.py lines 396-556)

The HTTP request structure is transcribed exactly; provider payload *parsing*
(the "try several possible field names" loops and numeric conversions) is
abstracted into oracle fields holding the post-extraction values, per the
client's isolation of provider-schema glue.  Python `or` chains on the
extracted values keep their falsy semantics (`""`/`0`/`None`). -/

/-- `x or y` on optional strings with Python truthiness. -/
def pyOrStr : Option String → Option String → Option String
  | some a, b => if a = "" then b else some a
  | none, b => b

/-- `x or y` on optional ints with Python truthiness (`0` is falsy). -/
def pyOrOptInt : Option Int → Option Int → Option Int
  | some a, b => if a = 0 then b else some a
  | none, b => b

/-- `progress or 100` in the ready result. -/
def pyOr100 : Option Int → Int
  | some a => if a = 0 then 100 else a
  | none => 100

/-- Result of one `requestdl` HTTP attempt: a 404/422/500 ("not ready, try the
next parameter combination"), a success whose parsed body yields an optional
URL, or another error class (raises `TorboxError`). -/
inductive DlAttempt
  | notReady | ok (url : Option String) | err (m : String)
deriving DecidableEq, Repr

/-- `torrent_id and str(torrent_id).lower() != "none"`. -/
def validRefStr (s : String) : Bool :=
  s ≠ "" && pyLower s ≠ "none"

/-- `hash_value and hash_value != torrent_id and str(hash_value).lower() != "none"`. -/
def validHash (tid : String) : Option String → Bool
  | some h => h ≠ "" && h ≠ tid && pyLower h ≠ "none"
  | none => false

/-- Number of parameter combinations `request_download_link` will try
(torbox_client.py lines 242-251). -/
def rdlNumAttempts (tid : String) (hv : Option String) : Nat :=
  (if validRefStr tid then 1 else 0) + (if validHash tid hv then 1 else 0) +
  (if validRefStr tid && validHash tid hv then 1 else 0)

/-- The attempt loop of `request_download_link` (torbox_client.py lines
253-276): one GET per attempt; 404/422/500 moves to the next combination;
other ≥400 raise; success returns the parsed optional URL.  Returns the
outcome and the number of HTTP requests issued.  Responses beyond the
supplied list default to the not-ready class. -/
def rdlLoop : Nat → List DlAttempt → Except String (Option String) × Nat
  | 0, _ => (.ok none, 0)
  | Nat.succ k, resps =>
    match resps with
    | [] =>
      let r := rdlLoop k []
      (r.1, r.2 + 1)
    | a :: rest =>
      match a with
      | .notReady =>
        let r := rdlLoop k rest
        (r.1, r.2 + 1)
      | .ok u => (.ok u, 1)
      | .err m => (.error m, 1)

def requestDownloadLink (tid : String) (hv : Option String) (resps : List DlAttempt) :
    Except String (Option String) × Nat :=
  rdlLoop (rdlNumAttempts tid hv) resps

/-- One torrent as found in `mylist` by `get_torrent_info_from_list`:
the id surviving the `torrent_id/id/torrentId/torrentID` extraction loop and
the converted progress figure. -/
structure TListInfo where
  torrentId : Option String
  progress : Option Int
deriving DecidableEq, Repr

/-- `torrentinfo` reply (`get_torrent_info`), post-extraction. -/
structure TInfoResp where
  torrentId : Option String
  progress : Option Int
deriving DecidableEq, Repr

/-- Provider-side oracle for one torrent `get_status` invocation. -/
structure TorrentStatusOracle where
  listRes : Except String (Option TListInfo)
  infoRes : Except String TInfoResp
  dlResps : List DlAttempt
deriving Repr

/-- `get_status` for `kind="torrent"` (torbox_client.py lines 402-503),
returning the normalised status result (or a propagated exception) together
with the number of provider HTTP requests issued under the single rate
limiter acquisition wrapping the call.  The computed-but-unused
`list_completed` block (lines 491-497) has no effect and is omitted. -/
def getStatusTorrent (ref : String) (o : TorrentStatusOracle) :
    Except String PollResp × Nat :=
  match o.listRes with
  | .error m => (.error m, 1)
  | .ok none => (.ok { is_ready := false, download_url := none, progress := none }, 1)
  | .ok (some li) =>
    let progress0 := li.progress
    let detail : Option String × Option Int :=
      match o.infoRes with
      | .error _ => (none, progress0)
      | .ok info => (info.torrentId, pyOrOptInt info.progress progress0)
    let progress1 := detail.2
    let tidUse := pyOrStr detail.1 li.torrentId
    let dl :=
      match tidUse with
      | some t =>
        if t ≠ "" then requestDownloadLink t (some ref) o.dlResps
        else requestDownloadLink ref none o.dlResps
      | none => requestDownloadLink ref none o.dlResps
    let res : Except String PollResp :=
      match dl.1 with
      | .error _ =>
        .ok { is_ready := false, download_url := none, progress := progress1 }
      | .ok u =>
        match optStrTruthy u with
        | some url =>
          .ok { is_ready := true, download_url := some url,
                progress := some (pyOr100 progress1) }
        | none =>
          .ok { is_ready := false, download_url := none, progress := progress1 }
    (res, 2 + dl.2)

/-- Provider-side oracle for one usenet `get_status` invocation: the
`mylist` outcome (converted progress of the matching job, `none` for a
missing job) and the single `usenet/requestdl` response. -/
structure NzbStatusOracle where
  listRes : Except String (Option Int)
  dlResp : DlAttempt
deriving Repr

/-- `get_status` for `kind="nzb"` (torbox_client.py lines 505-554): one
`usenet/mylist` request, then one `usenet/requestdl` request (404/500 mean
"not ready", other ≥400 raise `TorboxError`, which is caught). -/
def getStatusNzb (o : NzbStatusOracle) : Except String PollResp × Nat :=
  match o.listRes with
  | .error m => (.error m, 1)
  | .ok progress0 =>
    let url? :=
      match o.dlResp with
      | .notReady => none
      | .err _ => none
      | .ok u => optStrTruthy u
    let res : Except String PollResp :=
      match url? with
      | some url =>
        .ok { is_ready := true, download_url := some url,
              progress := some (pyOr100 progress0) }
      | none =>
        .ok { is_ready := false, download_url := none, progress := progress0 }
    (res, 2)

/-! ### `_scan_blackhole` (downloader.py lines 469-565)

One scan pass over the blackhole tree.  The filesystem is a tree of named
directories and regular files; `iterdir` order is the list order.  Row ids
are assigned by the store and not modelled; file contents are readable
(an unreadable file is skipped by the source and produces no job). -/

inductive FTree
  | file (name : String)
  | dir (name : String) (entries : List FTree)

/-- The projection of `Download(filename=entry.name, source_type=...,
category=..., status="queued", progress=0)` created per discovered file. -/
structure ScanJob where
  filename : String
  source_type : SourceType
  category : Option String
  status : Status
  progress : Int
deriving DecidableEq, Repr

def mkScanJob (filename : String) (st : SourceType) (cat : Option String) : ScanJob :=
  { filename := filename, source_type := st, category := cat,
    status := .queued, progress := 0 }

def catNames : List String := ["radarr", "sonarr", "whisparr"]

/-- Category detection (downloader.py lines 506-516): walk the components of
`entry.parent.relative_to(base_path)` from the scan root downwards and take
the first whose lowercase name is an Arr app name. -/
def detectCategory : List String → Option String
  | [] => none
  | p :: rest =>
    let pl := pyLower p
    if pl ∈ catNames then some pl else detectCategory rest

/-- A non-dotfile with recognised extension (downloader.py lines 497-501). -/
def recognizedFile (n : String) : Bool :=
  !(startsDot n) &&
    (pyLower (pySuffix n) = ".torrent" || pyLower (pySuffix n) = ".nzb")

def extSourceType (n : String) : SourceType :=
  if pyLower (pySuffix n) = ".torrent" then .torrent else .nzb

/-- The jobs `scan_directory(dir_path, base_path)` creates from one
already-taken directory listing; `relParts` are the path components from the
scan root to the listed directory.  The relocation of processed files into
`base/_processed` never changes a listing already taken (`iterdir`
materialises the listing when the walk reaches the directory), so the job
output per listing is independent of it; `scanGo` below threads the
relocation and `scanGo_jobs` proves its job output equals this. -/
def scanList (relParts : List String) : List FTree → List ScanJob
  | [] => []
  | .file n :: rest =>
    (if recognizedFile n then
       [mkScanJob n (extSourceType n) (detectCategory relParts)]
     else []) ++ scanList relParts rest
  | .dir d sub :: rest =>
    scanList (relParts ++ [d]) sub ++ scanList relParts rest
termination_by l => sizeOf l

/-- The qualifying files of a tree: `(components from the scan root to the
parent directory, file name)` for every non-dot file with a recognised
extension, in scan order. -/
def qualFiles (relParts : List String) : List FTree → List (List String × String)
  | [] => []
  | .file n :: rest =>
    (if recognizedFile n then [(relParts, n)] else []) ++ qualFiles relParts rest
  | .dir d sub :: rest =>
    qualFiles (relParts ++ [d]) sub ++ qualFiles relParts rest
termination_by l => sizeOf l

/-- Category rule as claim C7 words it: the name of the *nearest* ancestor
directory of the file (relative to the scan root), when that name is a
recognised category, else none. -/
def claimNearestCategory (relParts : List String) : Option String :=
  match relParts.getLast? with
  | none => none
  | some d => if pyLower d ∈ catNames then some (pyLower d) else none

/-- `scan_directory` with the `_processed` relocation (downloader.py lines
543-559): after its row is inserted, each job-creating file is renamed into
`base/_processed`, silently overwriting an already-present file of the same
name; a file that already lives inside `base/_processed` is renamed onto
itself and stays.  `pool` is the name set of `base/_processed` in insertion
order; the walk threads it because the recursion only lists
`base/_processed` when it reaches that directory (the rename is assumed to
succeed, the same-filesystem normal path; on failure the source deletes the
file instead). -/
def scanGo (ps : List String) (pool : List String) : List FTree → List ScanJob × List String
  | [] => ([], pool)
  | .file n :: rest =>
    if recognizedFile n then
      let pool2 := if n ∈ pool then pool else pool ++ [n]
      let out := scanGo ps pool2 rest
      (mkScanJob n (extSourceType n) (detectCategory ps) :: out.1, out.2)
    else scanGo ps pool rest
  | .dir d sub :: rest =>
    let out1 := scanGo (ps ++ [d]) pool sub
    let out2 := scanGo ps out1.2 rest
    (out1.1 ++ out2.1, out2.2)
termination_by l => sizeOf l

/-- One `_scan_blackhole` pass (downloader.py lines 469-565).  `_processed`
is created under the scan root before the walk (lines 490-491), so the root
listing is `before ++ [_processed] ++ after` for some `iterdir`-order split;
the walk takes the listing of `base/_processed` when it reaches that entry,
after the qualifying files of `before` (and of its subtrees) have already
been moved in, and rescans it like any directory (lines 560-562 exclude
nothing).  `pool0` holds the names left in `base/_processed` by earlier
passes.  Returns the created jobs and the final contents of
`base/_processed`. -/
def scanPass (before after : List FTree) (pool0 : List String) :
    List ScanJob × List String :=
  let out1 := scanGo [] pool0 before
  let outP := scanGo ["_processed"] out1.2 (out1.2.map FTree.file)
  let out2 := scanGo [] outP.2 after
  (out1.1 ++ outP.1 ++ out2.1, out2.2)

/-! ## Verification -/

/-! ### C3: provider calls per rate-limiter acquisition -/

theorem rdlLoop_calls_le : ∀ (n : Nat) (resps : List DlAttempt), (rdlLoop n resps).2 ≤ n := by
  intro n
  induction n with
  | zero => intro resps; simp [rdlLoop]
  | succ k ih =>
    intro resps
    cases resps with
    | nil => simpa [rdlLoop] using Nat.add_le_add_right (ih []) 1
    | cons a rest =>
      cases a with
      | notReady => simpa [rdlLoop] using Nat.add_le_add_right (ih rest) 1
      | ok u => simp [rdlLoop]
      | err m => simp [rdlLoop]

theorem rdlNumAttempts_le (tid : String) (hv : Option String) : rdlNumAttempts tid hv ≤ 3 := by
  unfold rdlNumAttempts
  split <;> split <;> split <;> omega

theorem requestDownloadLink_calls_le (tid : String) (hv : Option String)
    (resps : List DlAttempt) : (requestDownloadLink tid hv resps).2 ≤ 3 :=
  le_trans (rdlLoop_calls_le _ _) (rdlNumAttempts_le tid hv)

/-- C3 (counterexample): the claim that each rate-limiter acquisition
corresponds to at most one outbound provider call is false: a single
`get_status` call for a torrent found in `mylist`, with `torrentinfo`
returning a server error and three not-ready `requestdl` attempts, issues
five provider HTTP requests under its one limiter acquisition. -/
theorem c3_counterexample :
    ¬ (∀ (ref : String) (o : TorrentStatusOracle), (getStatusTorrent ref o).2 ≤ 1) := by
  intro h
  have h5 := h "abc"
    { listRes := .ok (some { torrentId := some "7", progress := some 50 }),
      infoRes := .error "500", dlResps := [.notReady, .notReady, .notReady] }
  revert h5
  decide

/-- C3 (amended): one worker rate-limiter acquisition wraps one `get_status`
call, which issues at most five provider HTTP requests for a torrent
(`mylist` + `torrentinfo` + up to three `requestdl` attempts) and at most two
for a usenet job — so the rolling-window bound on provider calls is 5R, not
R. -/
theorem c3_calls_per_acquisition_bound :
    (∀ (ref : String) (o : TorrentStatusOracle), (getStatusTorrent ref o).2 ≤ 5) ∧
    (∀ (o : NzbStatusOracle), (getStatusNzb o).2 ≤ 2) := by
  constructor
  · intro ref o
    rcases o with ⟨listRes, infoRes, dlResps⟩
    have hb : ∀ (t : String) (hv : Option String),
        (requestDownloadLink t hv dlResps).2 ≤ 3 :=
      fun t hv => requestDownloadLink_calls_le t hv dlResps
    rcases listRes with m | li
    · simp [getStatusTorrent]
    · rcases li with _ | li
      · simp [getStatusTorrent]
      · simp only [getStatusTorrent]
        split
        · split
          · exact Nat.add_le_add_left (hb _ _) 2
          · exact Nat.add_le_add_left (hb _ _) 2
        · exact Nat.add_le_add_left (hb _ _) 2
  · intro o
    rcases o with ⟨listRes, dlResp⟩
    rcases listRes with m | p
    · simp [getStatusNzb]
    · simp [getStatusNzb]

/-! ### C4: idempotent submission -/

/-- C4: re-invoking the submission phase on a Job that already carries a
`torbox_ref` performs no provider call, leaves the reference unchanged and
advances the status to `submitted` without error. -/
theorem c4_idempotent_submission (j : Job) (ctx : SubmitCtx) (ref : String)
    (h1 : j.torbox_ref = some ref) (h2 : ref ≠ "")
    (h3 : j.status = .submitting ∨ j.status = .submitted) :
    (ensureSubmitted ctx (initSys j [])).2 = .ok () ∧
    (ensureSubmitted ctx (initSys j [])).1.providerCalls = 0 ∧
    (ensureSubmitted ctx (initSys j [])).1.db = some { j with status := .submitted } := by
  rcases h3 with h3 | h3 <;>
    (cases j
     simp_all [ensureSubmitted, checkpoint, txn, subTxn1, observe, initSys, statusOf,
       optStrTruthy])

def c4Job : Job :=
  { newJob 2 "f.nzb" .nzb none with
    status := .submitting, torbox_ref := some "ref9", progress := 5 }

def c4Ctx : SubmitCtx := { apiKey := false, uploadOk := false, submitRes := .error "boom" }

theorem c4_witness :
    (c4Job.torbox_ref = some "ref9" ∧ "ref9" ≠ "" ∧
      (c4Job.status = .submitting ∨ c4Job.status = .submitted)) ∧
    ((ensureSubmitted c4Ctx (initSys c4Job [])).2 = .ok () ∧
     (ensureSubmitted c4Ctx (initSys c4Job [])).1.providerCalls = 0 ∧
     (ensureSubmitted c4Ctx (initSys c4Job [])).1.db = some { c4Job with status := .submitted }) :=
  ⟨⟨by decide, by decide, by decide⟩,
   c4_idempotent_submission c4Job c4Ctx "ref9" (by decide) (by decide) (by decide)⟩

/-! ### C5: poll progress update -/

def pollCexJob : Job :=
  { newJob 4 "f" .torrent none with
    status := .submitted, torbox_ref := some "r", progress := 50 }

/-- C5 (counterexample): the update `min(95, max(current, reported))` can make
progress reach the "ready" plateau: with current progress 50 and a reported
figure of 100, the stored progress becomes exactly 95, which is ≥ 95 —
refuting "a poll update never makes progress reach (≥ 95) while readiness is
unconfirmed". -/
theorem c5_counterexample :
    ¬ (∀ (j : Job) (rep : Int), (j.status = .submitted ∨ j.status = .downloading) →
        ∀ j', pollTxnB rep (some j) = some j' → j'.progress < 95) := by
  intro h
  have h95 := h pollCexJob 100 (by decide) { pollCexJob with progress := 95 } (by decide)
  revert h95
  decide

/-- C5 (amended): a not-ready poll with a progress figure stores
`min(95, max(current, reported))`; the stored value never *exceeds* 95 (it
may equal 95), and never decreases provided the current progress is ≤ 95
(which holds for every reachable poll state). -/
theorem c5_poll_progress_update (j : Job) (rep : Int)
    (h : j.status = .submitted ∨ j.status = .downloading) :
    pollTxnB rep (some j) = some { j with progress := min 95 (max j.progress rep) } ∧
    min 95 (max j.progress rep) ≤ 95 ∧
    (j.progress ≤ 95 → j.progress ≤ min 95 (max j.progress rep)) := by
  refine ⟨?_, min_le_left _ _, fun hp => le_min hp (le_max_left _ _)⟩
  rcases h with h | h <;> simp [pollTxnB, h]

theorem c5_witness :
    (pollCexJob.status = .submitted ∨ pollCexJob.status = .downloading) ∧
    (pollTxnB 100 (some pollCexJob) =
        some { pollCexJob with progress := min 95 (max pollCexJob.progress 100) } ∧
      min 95 (max pollCexJob.progress 100) ≤ 95 ∧
      (pollCexJob.progress ≤ 95 → pollCexJob.progress ≤ min 95 (max pollCexJob.progress 100))) :=
  ⟨by decide, c5_poll_progress_update pollCexJob 100 (by decide)⟩

/-! ### C8: zip artifact post-processing -/

/-- C8: for an artifact recognised as a zip, successful extraction with
exactly one top-level plain file makes that file the final artifact path and
deletes the zip; any other successful extraction (e.g. multiple entries)
makes the extraction directory the artifact; extraction failure keeps the zip
as the artifact. -/
theorem c8_zip_artifact (z : ZipCtx) (out : FPath) (s : Sys)
    (hz : pyLower (pySuffix out.name) = ".zip" ∨ z.isZipMagic = true) :
    (∀ e, z.extract = .ok [e] → e.isFile = true →
        (postProcessZip z out s).1 = { dir := out.dir ++ [pyStem out.name], name := e.name } ∧
        (postProcessZip z out s).2.zipDeleted = true) ∧
    (∀ es, z.extract = .ok es → 2 ≤ es.length →
        (postProcessZip z out s).1 = { dir := out.dir, name := pyStem out.name } ∧
        (postProcessZip z out s).2.zipDeleted = true) ∧
    (∀ u, z.extract = .error u →
        (postProcessZip z out s).1 = out ∧
        (postProcessZip z out s).2.zipDeleted = s.zipDeleted) := by
  refine ⟨?_, ?_, ?_⟩
  · intro e he hf
    simp [postProcessZip, hz, he, hf]
  · intro es he hlen
    rcases es with _ | ⟨a, _ | ⟨b, rest⟩⟩
    · simp at hlen
    · simp at hlen
    · simp [postProcessZip, hz, he]
  · intro u he
    simp [postProcessZip, hz, he]

def c8Zip : ZipCtx := { isZipMagic := true, extract := .ok [{ name := "movie.mkv", isFile := true }] }

def c8Out : FPath := { dir := ["out"], name := "1_a.zip" }

theorem c8_witness :
    (pyLower (pySuffix c8Out.name) = ".zip" ∨ c8Zip.isZipMagic = true) ∧
    ((∀ e, c8Zip.extract = .ok [e] → e.isFile = true →
        (postProcessZip c8Zip c8Out (initSys (newJob 1 "a.zip" .torrent none) [])).1 =
          { dir := c8Out.dir ++ [pyStem c8Out.name], name := e.name } ∧
        (postProcessZip c8Zip c8Out (initSys (newJob 1 "a.zip" .torrent none) [])).2.zipDeleted = true) ∧
     (∀ es, c8Zip.extract = .ok es → 2 ≤ es.length →
        (postProcessZip c8Zip c8Out (initSys (newJob 1 "a.zip" .torrent none) [])).1 =
          { dir := c8Out.dir, name := pyStem c8Out.name } ∧
        (postProcessZip c8Zip c8Out (initSys (newJob 1 "a.zip" .torrent none) [])).2.zipDeleted = true) ∧
     (∀ u, c8Zip.extract = .error u →
        (postProcessZip c8Zip c8Out (initSys (newJob 1 "a.zip" .torrent none) [])).1 = c8Out ∧
        (postProcessZip c8Zip c8Out (initSys (newJob 1 "a.zip" .torrent none) [])).2.zipDeleted =
          (initSys (newJob 1 "a.zip" .torrent none) []).zipDeleted)) :=
  ⟨Or.inr (by decide), c8_zip_artifact c8Zip c8Out _ (Or.inr (by decide))⟩

/-! ### C10: resume shortcut in the poll/acquire phase -/

/-- C10: a submitted Job that already records a provider download URL and
whose recorded `local_path` exists on disk is immediately completed with
progress 100 by `_ensure_downloaded`, with no provider call and no local
transfer. -/
theorem c10_resume_shortcut (j : Job) (ctx : DlCtx) (id : Nat)
    (h1 : j.status = .submitted)
    (h2 : (optStrTruthy j.torbox_download_url).isSome = true)
    (h3 : (optStrTruthy j.local_path).isSome = true)
    (h4 : ctx.localPathExists = true) :
    (ensureDownloaded ctx id (initSys j [])).2 = .ok () ∧
    (ensureDownloaded ctx id (initSys j [])).1.db =
      some { j with status := .completed, progress := 100 } ∧
    (ensureDownloaded ctx id (initSys j [])).1.providerCalls = 0 ∧
    (ensureDownloaded ctx id (initSys j [])).1.written = 0 ∧
    (ensureDownloaded ctx id (initSys j [])).1.renamedTo = none := by
  simp [ensureDownloaded, checkpoint, txn, dlTxn1, observe, initSys, statusOf, h1, h2, h3, h4]

def c10Job : Job :=
  { newJob 3 "f.bin" .torrent none with
    status := .submitted, torbox_ref := some "r",
    torbox_download_url := some "http", local_path := some "dl/3_f.bin" }

def c10Ctx : DlCtx :=
  { apiKey := true, localPathExists := true, polls := [], downloadRoot := ["dl"],
    resolvedName := "f.bin",
    stream := { httpOk := true, total := 0, cdName := none, chunks := [],
                zip := { isZipMagic := false, extract := .error () } } }

theorem c10_witness :
    (c10Job.status = .submitted ∧
      (optStrTruthy c10Job.torbox_download_url).isSome = true ∧
      (optStrTruthy c10Job.local_path).isSome = true ∧
      c10Ctx.localPathExists = true) ∧
    ((ensureDownloaded c10Ctx 3 (initSys c10Job [])).2 = .ok () ∧
     (ensureDownloaded c10Ctx 3 (initSys c10Job [])).1.db =
       some { c10Job with status := .completed, progress := 100 } ∧
     (ensureDownloaded c10Ctx 3 (initSys c10Job [])).1.providerCalls = 0 ∧
     (ensureDownloaded c10Ctx 3 (initSys c10Job [])).1.written = 0 ∧
     (ensureDownloaded c10Ctx 3 (initSys c10Job [])).1.renamedTo = none) :=
  ⟨⟨by decide, by decide, by decide, by decide⟩,
   c10_resume_shortcut c10Job c10Ctx 3 (by decide) (by decide) (by decide) (by decide)⟩

/-! ### C7: blackhole scan round-trip -/

theorem scanList_eq_qualFiles : ∀ (ps : List String) (l : List FTree),
    scanList ps l = (qualFiles ps l).map
      (fun q => mkScanJob q.2 (extSourceType q.2) (detectCategory q.1))
  | _ps, [] => by simp [scanList, qualFiles]
  | ps, .file n :: rest => by
    by_cases h : recognizedFile n <;>
      simp [scanList, qualFiles, h, scanList_eq_qualFiles ps rest]
  | ps, .dir d sub :: rest => by
    simp [scanList, qualFiles, scanList_eq_qualFiles (ps ++ [d]) sub,
      scanList_eq_qualFiles ps rest]
termination_by _ l => sizeOf l

/-- The jobs created while walking one listing do not depend on the
`_processed` pool: the pool only feeds the listing of `base/_processed`,
which is taken separately when the walk reaches it. -/
theorem scanGo_jobs : ∀ (ps pool : List String) (l : List FTree),
    (scanGo ps pool l).1 = scanList ps l
  | _, _, [] => by simp [scanGo, scanList]
  | ps, pool, .file n :: rest => by
    by_cases h : recognizedFile n
    · simp [scanGo, scanList, h,
        scanGo_jobs ps (if n ∈ pool then pool else pool ++ [n]) rest]
    · simp [scanGo, scanList, h, scanGo_jobs ps pool rest]
  | ps, pool, .dir d sub :: rest => by
    simp [scanGo, scanList, scanGo_jobs (ps ++ [d]) pool sub,
      scanGo_jobs ps (scanGo (ps ++ [d]) pool sub).2 rest]
termination_by _ _ l => sizeOf l

/-- C7 (amended): one scan pass creates exactly one queued Job (progress 0)
per qualifying (non-dot, recognised-extension) file it *encounters*, with
`source_type` determined by the extension and category the *first* path
component on the way from the scan root whose lowercase name is a recognised
category (not the nearest ancestor as the claim words it), else none.  The
encountered files are those of the root listing and its subtrees *plus*
those of `base/_processed` as it stands when the walk reaches it — which
includes the files moved in earlier in the same pass and the files left by
earlier passes, so one placed file is not limited to one Job. -/
theorem c7_scan_roundtrip (before after : List FTree) (pool0 : List String) :
    (scanPass before after pool0).1
      = (qualFiles [] before
         ++ qualFiles ["_processed"] (((scanGo [] pool0 before).2).map FTree.file)
         ++ qualFiles [] after).map
          (fun q => mkScanJob q.2 (extSourceType q.2) (detectCategory q.1)) ∧
    ∀ sj ∈ (scanPass before after pool0).1, sj.status = .queued ∧ sj.progress = 0 := by
  have h2 : (scanPass before after pool0).1
      = (qualFiles [] before
         ++ qualFiles ["_processed"] (((scanGo [] pool0 before).2).map FTree.file)
         ++ qualFiles [] after).map
          (fun q => mkScanJob q.2 (extSourceType q.2) (detectCategory q.1)) := by
    show (scanGo [] pool0 before).1
        ++ (scanGo ["_processed"] (scanGo [] pool0 before).2
              ((scanGo [] pool0 before).2.map FTree.file)).1
        ++ (scanGo [] (scanGo ["_processed"] (scanGo [] pool0 before).2
              ((scanGo [] pool0 before).2.map FTree.file)).2 after).1 = _
    rw [scanGo_jobs, scanGo_jobs, scanGo_jobs, scanList_eq_qualFiles,
      scanList_eq_qualFiles, scanList_eq_qualFiles, List.map_append, List.map_append]
  refine ⟨h2, ?_⟩
  intro sj hm
  rw [h2] at hm
  rcases List.mem_map.1 hm with ⟨q, _, rfl⟩
  exact ⟨rfl, rfl⟩

def c7Tree : List FTree := [.dir "radarr" [.dir "sub" [.file "f.torrent"]]]

/-- C7 (counterexample): (a) a single `g.torrent` placed at the scan root
yields *two* queued jobs in one pass when the walk lists `base/_processed`
after processing the file (the fresh listing re-discovers the just-moved
file), and (b) the next pass re-queues it again (the rename onto itself
succeeds, so `base/_processed` never empties); (c) for a file at
`radarr/sub/f.torrent` the scanner assigns category `radarr` (the outermost
matching ancestor) while the claim's nearest-ancestor rule assigns none,
since the nearest ancestor directory is `sub`. -/
theorem c7_counterexample :
    (scanPass [FTree.file "g.torrent"] [] []).1 =
      [mkScanJob "g.torrent" .torrent none, mkScanJob "g.torrent" .torrent none] ∧
    (scanPass [] [] (scanPass [FTree.file "g.torrent"] [] []).2).1 =
      [mkScanJob "g.torrent" .torrent none] ∧
    (scanPass c7Tree [] []).1.head? =
      some (mkScanJob "f.torrent" .torrent (some "radarr")) ∧
    claimNearestCategory ["radarr", "sub"] = none := by
  refine ⟨?_, ?_, ?_, ?_⟩
  · simp [scanPass, scanGo, recognizedFile, startsDot, pySuffix, pyNameSplit,
      pyLower, extSourceType, detectCategory, catNames, mkScanJob]
  · simp [scanPass, scanGo, recognizedFile, startsDot, pySuffix, pyNameSplit,
      pyLower, extSourceType, detectCategory, catNames, mkScanJob]
  · simp [c7Tree, scanPass, scanGo, recognizedFile, startsDot, pySuffix,
      pyNameSplit, pyLower, extSourceType, detectCategory, catNames, mkScanJob]
  · simp [claimNearestCategory, pyLower, catNames]

/-! ### Helper lemmas on `Sys` primitives -/

theorem observe_db (s : Sys) : (observe s).db = s.db := by
  unfold observe; split <;> rfl

theorem observe_env (s : Sys) : (observe s).env = s.env := by
  unfold observe; split <;> rfl

theorem observe_trace (s : Sys) : (observe s).trace = s.trace := by
  unfold observe; split <;> rfl

theorem observe_written (s : Sys) : (observe s).written = s.written := by
  unfold observe; split <;> rfl

theorem observe_renamedTo (s : Sys) : (observe s).renamedTo = s.renamedTo := by
  unfold observe; split <;> rfl

theorem observe_providerCalls (s : Sys) : (observe s).providerCalls = s.providerCalls := by
  unfold observe; split <;> rfl

theorem txn_db (f : Option Job → Option Job) (s : Sys) : (txn f s).db = f s.db := by
  unfold txn; rw [observe_db]

theorem txn_env (f : Option Job → Option Job) (s : Sys) : (txn f s).env = s.env := by
  unfold txn; rw [observe_env]

theorem txn_trace (f : Option Job → Option Job) (s : Sys) :
    (txn f s).trace = s.trace ++ [f s.db] := by
  unfold txn; rw [observe_trace]

theorem txn_written (f : Option Job → Option Job) (s : Sys) : (txn f s).written = s.written := by
  unfold txn; rw [observe_written]

theorem txn_renamedTo (f : Option Job → Option Job) (s : Sys) :
    (txn f s).renamedTo = s.renamedTo := by
  unfold txn; rw [observe_renamedTo]

theorem checkpoint_nil {s : Sys} (he : s.env = []) : checkpoint s = s := by
  unfold checkpoint; rw [he]

/-! ### C9: artifact path and the job-id prefix -/

/-- Mid-stream store write on an intact `downloading` row: the row keeps
status `downloading`. -/
theorem streamTxnD_downloading (pct : Option Int) (sp : Int) (j : Job)
    (hs : j.status = .downloading) :
    ∃ j1, streamTxnD pct sp (some j) = some j1 ∧ j1.status = .downloading := by
  cases pct with
  | none =>
    refine ⟨{ j with current_speed_bps := some sp }, by simp [streamTxnD, hs], hs⟩
  | some p =>
    refine ⟨{ j with
              progress := min 99 (max j.progress p),
              current_speed_bps := some sp }, by simp [streamTxnD, hs], hs⟩

/-- With no pending environment actions, the chunk loop of a `downloading`
Job runs to completion: it returns `ok`, keeps the row in `downloading`,
leaves the environment empty and never touches the rename target. -/
theorem streamLoop_nil_env : ∀ (chunks : List Chunk) (total got : Nat) (s : Sys) (j : Job),
    s.env = [] → s.db = some j → j.status = .downloading →
    ∃ (g : Nat) (s' : Sys) (j' : Job),
      streamLoop chunks total got s = (s', .ok g) ∧
      s'.env = [] ∧ s'.db = some j' ∧ j'.status = .downloading ∧
      s'.renamedTo = s.renamedTo := by
  intro chunks
  induction chunks with
  | nil =>
    intro total got s j he hd hs
    exact ⟨got, s, j, rfl, he, hd, hs, rfl⟩
  | cons c rest ih =>
    intro total got s j he hd hs
    have hS : statusOf s.db = some Status.downloading := by rw [hd]; simp [statusOf, hs]
    simp only [streamLoop, checkpoint_nil he, hS]
    rw [if_neg (show ¬ (Status.downloading = Status.cancelled) by decide)]
    by_cases hsz : c.size = 0
    · rw [if_pos hsz]
      exact ih total got s j he hd hs
    · rw [if_neg hsz]
      by_cases ht : c.tick
      · rw [if_pos (show c.tick = true from ht),
          checkpoint_nil (show ({ s with written := s.written + 1 } : Sys).env = [] from he)]
        set pct : Option Int :=
          (if total > 0 then some (Int.ofNat (10 + (got + c.size) * 89 / total)) else none)
          with hpct
        obtain ⟨j1, hj1e, hj1s⟩ := streamTxnD_downloading pct c.speed j hs
        have hTdb : (txn (streamTxnD pct c.speed) { s with written := s.written + 1 }).db
            = some j1 := by
          rw [txn_db]
          show streamTxnD pct c.speed s.db = some j1
          rw [hd]; exact hj1e
        have hTenv : (txn (streamTxnD pct c.speed) { s with written := s.written + 1 }).env
            = [] := by
          rw [txn_env]; exact he
        obtain ⟨g, s', j', heq, he', hd', hs', hr'⟩ :=
          ih total (got + c.size)
            (txn (streamTxnD pct c.speed) { s with written := s.written + 1 }) j1 hTenv hTdb hj1s
        refine ⟨g, s', j', heq, he', hd', hs', ?_⟩
        rw [hr', txn_renamedTo]
      · rw [if_neg ht]
        obtain ⟨g, s', j', heq, he', hd', hs', hr'⟩ :=
          ih total (got + c.size) { s with written := s.written + 1 } j he hd hs
        exact ⟨g, s', j', heq, he', hd', hs', hr'⟩

theorem postProcessZip_renamedTo (z : ZipCtx) (p : FPath) (s : Sys) :
    (postProcessZip z p s).2.renamedTo = s.renamedTo := by
  unfold postProcessZip
  repeat' split
  all_goals rfl

theorem postProcessZip_env (z : ZipCtx) (p : FPath) (s : Sys) :
    (postProcessZip z p s).2.env = s.env := by
  unfold postProcessZip
  repeat' split
  all_goals rfl

/-- With no pending environment actions and an intact `downloading` row,
`_download_stream` completes: the temp file is renamed to the resolved
output path (content-disposition absent, so the path is untouched) and no
error is raised. -/
theorem downloadStream_nil_env (ctx : StreamCtx) (p : FPath) (s : Sys) (j : Job)
    (hhttp : ctx.httpOk = true) (hcd : ctx.cdName = none)
    (he : s.env = []) (hd : s.db = some j) (hs : j.status = .downloading) :
    ∃ fp s', downloadStream ctx p s = (s', .ok fp) ∧
      s'.renamedTo = some p ∧ s'.env = [] := by
  obtain ⟨g, s1, j1, heq, he1, hd1, hs1, _hr⟩ :=
    streamLoop_nil_env ctx.chunks ctx.total 0 s j he hd hs
  have he2 : ({ s1 with renamedTo := some p } : Sys).env = [] := he1
  rcases hppq : postProcessZip ctx.zip p
      (txn clearSpeed (checkpoint { s1 with renamedTo := some p })) with ⟨fp, s4⟩
  have h4ren : s4.renamedTo = some p := by
    have hpr := postProcessZip_renamedTo ctx.zip p
      (txn clearSpeed (checkpoint { s1 with renamedTo := some p }))
    rw [hppq] at hpr
    rw [hpr, txn_renamedTo, checkpoint_nil he2]
  have h4env : s4.env = [] := by
    have hpe := postProcessZip_env ctx.zip p
      (txn clearSpeed (checkpoint { s1 with renamedTo := some p }))
    rw [hppq] at hpe
    rw [hpe, txn_env, checkpoint_nil he2]
    exact he1
  refine ⟨fp, s4, ?_, h4ren, h4env⟩
  simp only [downloadStream, hhttp, hcd, Bool.not_eq_true, heq, hppq]
  simp

def c9Job : Job :=
  { newJob 1 "file.bin" .torrent none with
    status := .downloading, torbox_ref := some "r",
    torbox_download_url := some "u", progress := 10 }

def c9Stream : StreamCtx :=
  { httpOk := true, total := 0, cdName := some "movie.mkv", chunks := [],
    zip := { isZipMagic := false, extract := .error () } }

/-- C9 (counterexample): when the GET response carries a content-disposition
filename (`movie.mkv`) differing from the current name, `_download_stream`
replaces the output path with it, so the artifact written before zip
post-processing is `root/movie.mkv` — not the claimed
`root/<job_id>_<resolved_filename>` (`root/1_file.bin`), and its name does
not start with the job id prefix `1_`. -/
theorem c9_counterexample :
    (downloadStream c9Stream { dir := ["root"], name := "1_file.bin" }
        (initSys c9Job [])).1.renamedTo =
      some { dir := ["root"], name := "movie.mkv" } ∧
    some ({ dir := ["root"], name := "movie.mkv" } : FPath) ≠
      some ({ dir := ["root"], name := "1_file.bin" } : FPath) ∧
    ("movie.mkv").data.take 2 ≠ (toString (1 : Nat) ++ "_").data := by
  decide

/-- C9 (amended): when the transfer completes and the GET response supplies
no content-disposition filename, the artifact path written before zip
post-processing is `<output_root>[/<category>]/<job_id>_<resolved_filename>`
(job-id prefix included); a differing content-disposition filename replaces
the name and drops the prefix (see the counterexample). -/
theorem c9_artifact_path (j : Job) (ctx : DlCtx) (id : Nat) (u : String) (pr : Option Int)
    (hst : j.status = .submitted)
    (href : (optStrTruthy j.torbox_ref).isSome = true)
    (hurl : j.torbox_download_url = none)
    (hkey : ctx.apiKey = true)
    (hp : ctx.polls = [.ok { is_ready := true, download_url := some u, progress := pr }])
    (hu : u ≠ "")
    (hhttp : ctx.stream.httpOk = true)
    (hcd : ctx.stream.cdName = none) :
    (ensureDownloaded ctx id (initSys j [])).2 = .ok () ∧
    (ensureDownloaded ctx id (initSys j [])).1.renamedTo =
      some { dir := ctx.downloadRoot ++ (match j.category with
               | some c => if c = "" then [] else [pyLower c]
               | none => []),
             name := toString id ++ "_" ++ ctx.resolvedName } := by
  obtain ⟨r, hr⟩ := Option.isSome_iff_exists.1 href
  have hnc : ¬ (j.status = Status.completed ∨ j.status = Status.cancelled) := by
    rw [hst]; rintro (h | h) <;> cases h
  have hurl' : (optStrTruthy j.torbox_download_url).isSome = false := by
    rw [hurl]; rfl
  have hd1 : dlTxn1 ctx (some j) = (some j, .proceed r j.category j.filename) := by
    simp [dlTxn1, hnc, hurl', hkey, hr]
  set s2 : Sys := txn (fun db => (dlTxn1 ctx db).1) (initSys j []) with hs2def
  have hs2db : s2.db = some j := by
    rw [hs2def, txn_db]
    show (dlTxn1 ctx (some j)).1 = some j
    rw [hd1]
  have hs2env : s2.env = [] := by rw [hs2def, txn_env]; rfl
  have hs2ren : s2.renamedTo = none := by rw [hs2def, txn_renamedTo]; rfl
  have hpoll : pollLoop (ctx.polls.take 60) s2 = (bumpCalls s2, .url u) := by
    rw [hp]
    show pollLoop [.ok { is_ready := true, download_url := some u, progress := pr }] s2 = _
    rw [pollLoop, checkpoint_nil hs2env, hs2db]
    simp [statusOf, hst, optStrTruthy, hu]
  set j2 : Job := { j with
                    torbox_download_url := some u, status := .downloading,
                    progress := max j.progress 10 } with hj2
  have hj2s : j2.status = .downloading := by rw [hj2]
  have hd2 : dlTxn2 u (some j) = (some j2, true) := by
    simp [dlTxn2, hnc, hj2]
  have hbenv : (bumpCalls s2).env = [] := hs2env
  have hbdb : (bumpCalls s2).db = some j := hs2db
  set s5 : Sys := txn (fun db => (dlTxn2 u db).1) (bumpCalls s2) with hs5def
  have hs5db : s5.db = some j2 := by
    rw [hs5def, txn_db]
    show (dlTxn2 u (bumpCalls s2).db).1 = some j2
    rw [hbdb, hd2]
  have hs5env : s5.env = [] := by rw [hs5def, txn_env]; exact hbenv
  have hg : (dlTxn2 u (bumpCalls s2).db).2 = true := by rw [hbdb, hd2]
  obtain ⟨fp, s6, hds, hren6, henv6⟩ :=
    downloadStream_nil_env ctx.stream
      { dir := ctx.downloadRoot ++ (match j.category with
          | some c => if c = "" then [] else [pyLower c]
          | none => []),
        name := toString id ++ "_" ++ ctx.resolvedName } s5 j2 hhttp hcd hs5env hs5db hj2s
  have hfinal : ensureDownloaded ctx id (initSys j []) =
      (txn (dlTxn4 fp) s6, .ok ()) := by
    simp only [ensureDownloaded, checkpoint_nil (show (initSys j []).env = [] from rfl)]
    have : (initSys j []).db = some j := rfl
    rw [this, hd1]
    simp only []
    rw [← hs2def, hpoll]
    simp only [checkpoint_nil hbenv, hg, ← hs5def]
    rw [hds]
    simp only [checkpoint_nil henv6]
    simp
  rw [hfinal]
  exact ⟨rfl, by rw [txn_renamedTo]; exact hren6⟩

def c9wJob : Job :=
  { newJob 7 "film.torrent" .torrent (some "radarr") with
    status := .submitted, torbox_ref := some "r" }

def c9wCtx : DlCtx :=
  { apiKey := true, localPathExists := false,
    polls := [.ok { is_ready := true, download_url := some "http", progress := some 100 }],
    downloadRoot := ["dl"], resolvedName := "film.mkv",
    stream := { httpOk := true, total := 0, cdName := none, chunks := [],
                zip := { isZipMagic := false, extract := .error () } } }

theorem c9_witness :
    (c9wJob.status = .submitted ∧ (optStrTruthy c9wJob.torbox_ref).isSome = true ∧
     c9wJob.torbox_download_url = none ∧ c9wCtx.apiKey = true ∧
     c9wCtx.polls = [.ok { is_ready := true, download_url := some "http", progress := some 100 }] ∧
     "http" ≠ "" ∧ c9wCtx.stream.httpOk = true ∧ c9wCtx.stream.cdName = none) ∧
    ((ensureDownloaded c9wCtx 7 (initSys c9wJob [])).2 = .ok () ∧
     (ensureDownloaded c9wCtx 7 (initSys c9wJob [])).1.renamedTo =
       some { dir := c9wCtx.downloadRoot ++ (match c9wJob.category with
                | some c => if c = "" then [] else [pyLower c]
                | none => []),
              name := toString 7 ++ "_" ++ c9wCtx.resolvedName }) :=
  ⟨⟨rfl, by decide, rfl, rfl, rfl, by decide, rfl, rfl⟩,
   c9_artifact_path c9wJob c9wCtx 7 "http" (some 100) rfl (by decide) rfl rfl rfl
     (by decide) rfl rfl⟩

/-! ### C2: cancellation during streaming -/

/-- The row is gone or cancelled. -/
def CancelledOrGone (db : Option Job) : Prop :=
  db = none ∨ statusOf db = some .cancelled

theorem applyEnv_stuck (e : EnvAct) (db : Option Job) (h : CancelledOrGone db) :
    CancelledOrGone (applyEnv e db) := by
  cases e with
  | skip => exact h
  | delete => exact Or.inl rfl
  | cancel =>
    rcases h with h | h
    · rw [h]; exact Or.inl rfl
    · rcases db with _ | d
      · exact Or.inl rfl
      · have hd : d.status = Status.cancelled := by
          simpa [statusOf] using h
        right
        simp [applyEnv, cancelDownload, hd, statusOf]

/-- Invariant: once a cancellation has been observed, no further chunk has
been written and the row stays gone/cancelled. -/
def WacInv (s : Sys) : Prop :=
  ∀ w, s.writtenAtCancel = some w → s.written = w ∧ CancelledOrGone s.db

theorem wacInv_observe (s : Sys) (h : WacInv s) : WacInv (observe s) := by
  intro w hw
  unfold observe at hw ⊢
  by_cases hc : (s.writtenAtCancel = none ∧ statusOf s.db = some .cancelled)
  · rw [if_pos hc] at hw ⊢
    have hww : s.written = w := by
      simpa using hw
    exact ⟨hww, Or.inr hc.2⟩
  · rw [if_neg hc] at hw ⊢
    exact h w hw

theorem wacInv_checkpoint (s : Sys) (h : WacInv s) : WacInv (checkpoint s) := by
  unfold checkpoint
  cases henv : s.env with
  | nil => exact h
  | cons a rest =>
    apply wacInv_observe
    intro w hw
    have := h w hw
    exact ⟨this.1, applyEnv_stuck a s.db this.2⟩

theorem wacInv_txn (f : Option Job → Option Job)
    (hf : ∀ db, CancelledOrGone db → CancelledOrGone (f db))
    (s : Sys) (h : WacInv s) : WacInv (txn f s) := by
  unfold txn
  apply wacInv_observe
  intro w hw
  have := h w hw
  exact ⟨this.1, hf s.db this.2⟩

theorem streamTxnD_stuck (pct : Option Int) (sp : Int) (db : Option Job)
    (h : CancelledOrGone db) : CancelledOrGone (streamTxnD pct sp db) := by
  rcases h with h | h
  · rw [h]; exact Or.inl rfl
  · rcases db with _ | d
    · exact Or.inl rfl
    · have hd : d.status = Status.cancelled := by simpa [statusOf] using h
      right
      simp [streamTxnD, hd, statusOf]

theorem clearSpeed_stuck (db : Option Job) (h : CancelledOrGone db) :
    CancelledOrGone (clearSpeed db) := by
  rcases h with h | h
  · rw [h]; exact Or.inl rfl
  · rcases db with _ | d
    · exact Or.inl rfl
    · have hd : d.status = Status.cancelled := by simpa [statusOf] using h
      right
      simp [clearSpeed, statusOf, hd]

theorem checkpoint_renamedTo (s : Sys) : (checkpoint s).renamedTo = s.renamedTo := by
  unfold checkpoint
  cases s.env with
  | nil => rfl
  | cons a rest => rw [observe_renamedTo]

theorem statusOf_none {db : Option Job} (h : statusOf db = none) : db = none := by
  rcases db with _ | d
  · rfl
  · simp [statusOf] at h

/-- Chunk-loop master lemma: the cancellation-observer invariant is
preserved, the rename target is never touched, and a cancellation abort
leaves the row gone or cancelled. -/
theorem streamLoop_wac : ∀ (chunks : List Chunk) (total got : Nat) (s : Sys),
    WacInv s →
    WacInv (streamLoop chunks total got s).1 ∧
    (streamLoop chunks total got s).1.renamedTo = s.renamedTo ∧
    ((streamLoop chunks total got s).2 = .error .cancelledErr →
      CancelledOrGone (streamLoop chunks total got s).1.db) := by
  intro chunks
  induction chunks with
  | nil =>
    intro total got s h
    refine ⟨h, rfl, ?_⟩
    intro hcontra
    simp [streamLoop] at hcontra
  | cons c rest ih =>
    intro total got s h
    have h1 : WacInv (checkpoint s) := wacInv_checkpoint s h
    rcases hdb : statusOf (checkpoint s).db with _ | st
    · have : (checkpoint s).db = none := statusOf_none hdb
      simp only [streamLoop, hdb]
      exact ⟨h1, checkpoint_renamedTo s, fun _ => Or.inl this⟩
    · by_cases hcanc : st = Status.cancelled
      · subst hcanc
        simp only [streamLoop, hdb, if_pos rfl]
        exact ⟨h1, checkpoint_renamedTo s, fun _ => Or.inr hdb⟩
      · simp only [streamLoop, hdb, if_neg hcanc]
        by_cases hsz : c.size = 0
        · rw [if_pos hsz]
          obtain ⟨ha, hb, hc2⟩ := ih total got (checkpoint s) h1
          exact ⟨ha, by rw [hb, checkpoint_renamedTo], hc2⟩
        · rw [if_neg hsz]
          have h2 : WacInv ({ checkpoint s with written := (checkpoint s).written + 1 } : Sys) := by
            intro w hw
            exfalso
            have := h1 w hw
            rcases this.2 with hgone | hcan
            · rw [hgone] at hdb; simp [statusOf] at hdb
            · rw [hdb] at hcan
              exact hcanc (by injection hcan)
          by_cases ht : c.tick
          · rw [if_pos (show c.tick = true from ht)]
            have h3 : WacInv (txn (streamTxnD
                (if total > 0 then some (Int.ofNat (10 + (got + c.size) * 89 / total)) else none)
                c.speed)
                (checkpoint { checkpoint s with written := (checkpoint s).written + 1 })) :=
              wacInv_txn _ (streamTxnD_stuck _ c.speed) _ (wacInv_checkpoint _ h2)
            obtain ⟨ha, hb, hc2⟩ := ih total (got + c.size) _ h3
            refine ⟨ha, ?_, hc2⟩
            rw [hb, txn_renamedTo, checkpoint_renamedTo]
            exact checkpoint_renamedTo s
          · rw [if_neg ht]
            obtain ⟨ha, hb, hc2⟩ := ih total (got + c.size) _ h2
            refine ⟨ha, ?_, hc2⟩
            rw [hb]
            exact checkpoint_renamedTo s

theorem postProcessZip_db (z : ZipCtx) (p : FPath) (s : Sys) :
    (postProcessZip z p s).2.db = s.db := by
  unfold postProcessZip
  repeat' split
  all_goals rfl

theorem postProcessZip_written (z : ZipCtx) (p : FPath) (s : Sys) :
    (postProcessZip z p s).2.written = s.written := by
  unfold postProcessZip
  repeat' split
  all_goals rfl

theorem postProcessZip_wac (z : ZipCtx) (p : FPath) (s : Sys) :
    (postProcessZip z p s).2.writtenAtCancel = s.writtenAtCancel := by
  unfold postProcessZip
  repeat' split
  all_goals rfl

theorem wacInv_postProcessZip (z : ZipCtx) (p : FPath) (s : Sys) (h : WacInv s) :
    WacInv (postProcessZip z p s).2 := by
  intro w hw
  rw [postProcessZip_wac] at hw
  have := h w hw
  rw [postProcessZip_written, postProcessZip_db]
  exact this

/-- `_download_stream` master lemma: the cancellation-observer invariant is
preserved, and a cancellation abort means the temp file was never renamed
and the row is gone or cancelled. -/
theorem downloadStream_wac (ctx : StreamCtx) (p : FPath) (s : Sys) (h : WacInv s) :
    WacInv (downloadStream ctx p s).1 ∧
    ((downloadStream ctx p s).2 = .error .cancelledErr →
      (downloadStream ctx p s).1.renamedTo = s.renamedTo ∧
      CancelledOrGone (downloadStream ctx p s).1.db) := by
  by_cases hh : ctx.httpOk
  · set q : FPath := (match ctx.cdName with
      | some raw =>
        if sanitizeFilename raw ≠ "" ∧ sanitizeFilename raw ≠ p.name then
          { dir := p.dir, name := sanitizeFilename raw }
        else p
      | none => p) with hq
    rcases hsl : streamLoop ctx.chunks ctx.total 0 s with ⟨s1, r⟩
    obtain ⟨ha, hb, hc2⟩ := streamLoop_wac ctx.chunks ctx.total 0 s h
    rw [hsl] at ha hb hc2
    cases r with
    | error e =>
      have hres : downloadStream ctx p s = (s1, .error e) := by
        simp only [downloadStream, hh, hsl]
        simp
      rw [hres]
      refine ⟨ha, fun hce => ?_⟩
      have he' : e = .cancelledErr := by simpa using hce
      subst he'
      exact ⟨hb, hc2 rfl⟩
    | ok g =>
      rcases hppq : postProcessZip ctx.zip q
          (txn clearSpeed (checkpoint { s1 with renamedTo := some q })) with ⟨fp, s4⟩
      have hres : downloadStream ctx p s = (s4, .ok fp) := by
        simp only [downloadStream, hh, hsl, ← hq, hppq]
        simp
      rw [hres]
      constructor
      · have h2 : WacInv ({ s1 with renamedTo := some q } : Sys) := fun w hw => ha w hw
        have h3 := wacInv_postProcessZip ctx.zip q _
          (wacInv_txn clearSpeed clearSpeed_stuck _ (wacInv_checkpoint _ h2))
        rw [hppq] at h3
        exact h3
      · intro hce
        simp at hce
  · have hh2 : ctx.httpOk = false := by simpa using hh
    have hres : downloadStream ctx p s = (s, .error (.httpErr "HTTPStatusError")) := by
      simp only [downloadStream, hh2]
      simp
    rw [hres]
    refine ⟨h, fun hce => ?_⟩
    simp at hce

theorem failTxn_stuck (msg : String) (db : Option Job) (h : CancelledOrGone db) :
    CancelledOrGone (failTxn msg db) := by
  rcases h with h | h
  · rw [h]; exact Or.inl rfl
  · rcases db with _ | d
    · exact Or.inl rfl
    · have hd : d.status = Status.cancelled := by simpa [statusOf] using h
      right
      simp [failTxn, hd, statusOf]

theorem checkpoint_stuck (s : Sys) (h : CancelledOrGone s.db) :
    CancelledOrGone (checkpoint s).db := by
  unfold checkpoint
  cases s.env with
  | nil => exact h
  | cons a rest =>
    rw [observe_db]
    exact applyEnv_stuck a s.db h

/-- The job-granularity exception handler never turns a cancelled (or
deleted) row into anything else: cancellation wins over failure. -/
theorem handleFail_stuck (e : WErr) (s : Sys) (h : CancelledOrGone s.db) :
    ∀ jf, (handleFail e s).db = some jf → jf.status = .cancelled := by
  intro jf hjf
  unfold handleFail at hjf
  rw [txn_db] at hjf
  have := failTxn_stuck (errMsg e) (checkpoint s).db (checkpoint_stuck s h)
  rcases this with hgone | hcan
  · rw [hjf] at hgone; cases hgone
  · rw [hjf] at hcan
    simpa [statusOf] using hcan

/-- C2: the streaming loop re-checks the live status before each chunk
write; whenever a cancellation becomes visible, at most one further chunk
ends up written (in this model: none); if the stream aborts with the
cancellation error, the temp file was never renamed to a final artifact, and
after the `_process_one` handler runs, the Job's final status is `cancelled`
(never `completed`) whenever the row still exists. -/
theorem c2_cancel_during_stream (j : Job) (env : List EnvAct) (ctx : StreamCtx) (out0 : FPath) :
    (∀ w, (downloadStream ctx out0 (initSys j env)).1.writtenAtCancel = some w →
       (downloadStream ctx out0 (initSys j env)).1.written ≤ w + 1) ∧
    ((downloadStream ctx out0 (initSys j env)).2 = .error .cancelledErr →
       (downloadStream ctx out0 (initSys j env)).1.renamedTo = none ∧
       ∀ jf, (handleFail .cancelledErr (downloadStream ctx out0 (initSys j env)).1).db = some jf →
         jf.status = .cancelled) := by
  have h0 : WacInv (initSys j env) := by
    intro w hw
    cases hw
  obtain ⟨ha, hb⟩ := downloadStream_wac ctx out0 (initSys j env) h0
  refine ⟨?_, ?_⟩
  · intro w hw
    have := (ha w hw).1
    omega
  · intro hce
    obtain ⟨hren, hdb⟩ := hb hce
    exact ⟨hren, handleFail_stuck .cancelledErr _ hdb⟩

/-! ### C1/C6: the status machine and progress monotonicity -/

def isTerminal : Status → Bool
  | .completed => true
  | .failed => true
  | .cancelled => true
  | _ => false

/-- The transition edges enumerated in spec §4.1. -/
def allowedEdge : Status → Status → Bool
  | .queued, .submitting => true
  | .submitting, .submitted => true
  | .submitted, .downloading => true
  | .downloading, .completed => true
  | a, .failed => !(isTerminal a)
  | a, .cancelled => !(isTerminal a)
  | _, _ => false

/-- One trace step: either the status is unchanged or it moves along an
allowed edge; and progress does not decrease while the status is
non-terminal.  A deleted row never reappears. -/
def okStep : Option Job → Option Job → Bool
  | none, none => true
  | none, some _ => false
  | some _, none => true
  | some x, some y =>
    (x.status == y.status || allowedEdge x.status y.status) &&
    (isTerminal x.status || decide (x.progress ≤ y.progress))

/-- Status-only projection of `okStep` (claim C1). -/
def statusStep : Option Job → Option Job → Bool
  | none, none => true
  | none, some _ => false
  | some _, none => true
  | some x, some y => x.status == y.status || allowedEdge x.status y.status

/-- Progress-only projection of `okStep` (claim C6). -/
def progStep : Option Job → Option Job → Bool
  | some x, some y => isTerminal x.status || decide (x.progress ≤ y.progress)
  | _, _ => true

/-- State invariant maintained by every reachable row: a download URL is
only recorded from `downloading` onwards, and progress stays below the
plateaus the later writes assume. -/
def JobInv (j : Job) : Prop :=
  ((j.status = .queued ∨ j.status = .submitting ∨ j.status = .submitted) →
      j.torbox_download_url = none ∧ j.progress ≤ 95) ∧
  (j.status = .downloading → j.progress ≤ 99)

def DbInv : Option Job → Prop
  | none => True
  | some j => JobInv j

/-- Well-formed system state reachable from a fresh job `h0`: the trace is
non-empty, starts at `h0`, ends at the current row, links consecutive
snapshots by `okStep`, and the current row satisfies the state invariant. -/
def Good (h0 : Option Job) (s : Sys) : Prop :=
  s.trace ≠ [] ∧ s.trace.head? = some h0 ∧ s.trace.getLast? = some s.db ∧
  List.Chain' (fun a b => okStep a b = true) s.trace ∧ DbInv s.db

theorem okStep_refl (db : Option Job) : okStep db db = true := by
  cases db with
  | none => rfl
  | some x => simp [okStep]

theorem okStep_env (e : EnvAct) (db : Option Job) : okStep db (applyEnv e db) = true := by
  cases e with
  | skip => exact okStep_refl db
  | delete => cases db <;> rfl
  | cancel =>
    cases db with
    | none => rfl
    | some d =>
      by_cases hg : d.status = .completed ∨ d.status = .failed
      · simp only [applyEnv, cancelDownload, if_pos hg]
        exact okStep_refl (some d)
      · simp only [applyEnv, cancelDownload, if_neg hg]
        cases hst : d.status <;> simp_all [okStep, allowedEdge, isTerminal]

theorem dbInv_env (e : EnvAct) (db : Option Job) (h : DbInv db) : DbInv (applyEnv e db) := by
  cases e with
  | skip => exact h
  | delete => trivial
  | cancel =>
    cases db with
    | none => trivial
    | some d =>
      by_cases hg : d.status = .completed ∨ d.status = .failed
      · simpa [applyEnv, cancelDownload, if_pos hg] using h
      · simp [applyEnv, cancelDownload, if_neg hg, DbInv, JobInv]

theorem head?_append_one {α : Type} (l : List α) (x : α) (h : l ≠ []) :
    (l ++ [x]).head? = l.head? := by
  cases l with
  | nil => exact absurd rfl h
  | cons a t => rfl

theorem getLast?_append_one {α : Type} (l : List α) (x : α) :
    (l ++ [x]).getLast? = some x :=
  List.getLast?_concat l

theorem chain'_snoc {α : Type} {R : α → α → Prop} {l : List α} {a b : α}
    (h : List.Chain' R l) (hl : l.getLast? = some a) (hr : R a b) :
    List.Chain' R (l ++ [b]) := by
  refine List.Chain'.append h (List.chain'_singleton b) ?_
  intro x hx y hy
  rw [hl] at hx
  simp only [Option.mem_def, Option.some.injEq] at hx
  simp only [List.head?_cons, Option.mem_def, Option.some.injEq] at hy
  subst hx; subst hy
  exact hr

theorem good_observe {h0 : Option Job} {s : Sys} (hG : Good h0 s) : Good h0 (observe s) := by
  unfold Good at hG ⊢
  rw [observe_db, observe_trace]
  exact hG

theorem good_checkpoint {h0 : Option Job} {s : Sys} (hG : Good h0 s) : Good h0 (checkpoint s) := by
  unfold checkpoint
  cases henv : s.env with
  | nil => exact hG
  | cons a rest =>
    apply good_observe
    obtain ⟨hne, hhd, hlast, hchain, hinv⟩ := hG
    refine ⟨by simp, ?_, ?_, ?_, ?_⟩
    · rw [head?_append_one s.trace _ hne]
      exact hhd
    · exact getLast?_append_one s.trace _
    · exact chain'_snoc hchain hlast (okStep_env a s.db)
    · exact dbInv_env a s.db hinv

theorem good_txn {h0 : Option Job} {s : Sys} (f : Option Job → Option Job)
    (hok : okStep s.db (f s.db) = true) (hinv : DbInv (f s.db))
    (hG : Good h0 s) : Good h0 (txn f s) := by
  unfold txn
  apply good_observe
  obtain ⟨hne, hhd, hlast, hchain, _⟩ := hG
  refine ⟨by simp, ?_, ?_, ?_, hinv⟩
  · rw [head?_append_one s.trace _ hne]
    exact hhd
  · exact getLast?_append_one s.trace _
  · exact chain'_snoc hchain hlast hok

theorem good_bumpCalls {h0 : Option Job} {s : Sys} (hG : Good h0 s) : Good h0 (bumpCalls s) := hG

theorem good_setWritten {h0 : Option Job} {s : Sys} (n : Nat) (hG : Good h0 s) :
    Good h0 ({ s with written := n } : Sys) := hG

theorem good_setRenamed {h0 : Option Job} {s : Sys} (p : Option FPath) (hG : Good h0 s) :
    Good h0 ({ s with renamedTo := p } : Sys) := hG

theorem good_inv {h0 : Option Job} {s : Sys} (hG : Good h0 s) : DbInv s.db := hG.2.2.2.2

/-- A status predicate on an optional row (vacuous for a deleted row). -/
def StP (P : Job → Prop) : Option Job → Prop
  | none => True
  | some j => P j

/-- Statuses admissible at entry of `_ensure_submitted`. -/
def PSub (j : Job) : Prop :=
  j.status = .submitting ∨ j.status = .submitted ∨ j.status = .cancelled

/-- Statuses admissible after a successful `_ensure_submitted`, hence at
entry of `_ensure_downloaded`. -/
def PRet (j : Job) : Prop :=
  j.status = .submitted ∨ j.status = .cancelled

/-- Statuses admissible during the local transfer. -/
def PDl (j : Job) : Prop :=
  j.status = .downloading ∨ j.status = .cancelled

theorem stP_env (P : Job → Prop)
    (hP : ∀ j, P j → P { j with status := .cancelled }) (e : EnvAct) (db : Option Job)
    (h : StP P db) : StP P (applyEnv e db) := by
  cases e with
  | skip => exact h
  | delete => trivial
  | cancel =>
    cases db with
    | none => trivial
    | some d =>
      by_cases hg : d.status = .completed ∨ d.status = .failed
      · simpa [applyEnv, cancelDownload, if_pos hg] using h
      · simp only [applyEnv, cancelDownload, if_neg hg]
        exact hP d h

theorem stP_checkpoint (P : Job → Prop)
    (hP : ∀ j, P j → P { j with status := .cancelled }) (s : Sys)
    (h : StP P s.db) : StP P (checkpoint s).db := by
  unfold checkpoint
  cases s.env with
  | nil => exact h
  | cons a rest =>
    rw [observe_db]
    exact stP_env P hP a s.db h

theorem pSub_cancel : ∀ j, PSub j → PSub { j with status := .cancelled } :=
  fun _ _ => Or.inr (Or.inr rfl)

theorem pRet_cancel : ∀ j, PRet j → PRet { j with status := .cancelled } :=
  fun _ _ => Or.inr rfl

theorem pDl_cancel : ∀ j, PDl j → PDl { j with status := .cancelled } :=
  fun _ _ => Or.inr rfl

theorem stP_some {P : Job → Prop} {db : Option Job} {st : Status}
    (h : StP P db) (hs : statusOf db = some st) :
    ∃ j, db = some j ∧ j.status = st ∧ P j := by
  cases db with
  | none => simp [statusOf] at hs
  | some j =>
    refine ⟨j, rfl, ?_, h⟩
    simpa [statusOf] using hs

theorem okStep_same {x y : Job} (hs : x.status = y.status) (hp : x.progress ≤ y.progress) :
    okStep (some x) (some y) = true := by
  simp [okStep, hs, hp]

theorem subTxn1_spec (ctx : SubmitCtx) (db : Option Job) (hP : StP PSub db) (hI : DbInv db) :
    okStep db (subTxn1 ctx db).1 = true ∧ DbInv (subTxn1 ctx db).1 ∧
    ((subTxn1 ctx db).2 = .ret → StP PRet (subTxn1 ctx db).1) ∧
    ((subTxn1 ctx db).2 = .proceed →
      (subTxn1 ctx db).1 = db ∧
      ∃ item, db = some item ∧ (item.status = .submitting ∨ item.status = .submitted)) := by
  cases db with
  | none =>
    exact ⟨rfl, trivial, fun _ => trivial, fun h => by simp [subTxn1] at h⟩
  | some item =>
    have hJ : JobInv item := hI
    rcases hP with hst | hst | hst
    · have hg : ¬ (item.status = .completed ∨ item.status = .cancelled) := by
        rw [hst]; rintro (h | h) <;> cases h
      simp only [subTxn1, if_neg hg]
      by_cases href : (optStrTruthy item.torbox_ref).isSome
      · rw [if_pos href, if_pos hst]
        refine ⟨?_, ?_, fun _ => Or.inl rfl, fun h => by simp at h⟩
        · simp [okStep, hst, allowedEdge]
        · refine ⟨fun _ => ?_, fun hdl => ?_⟩
          · exact hJ.1 (Or.inr (Or.inl hst))
          · simp at hdl
      · rw [if_neg href]
        by_cases hkey : ctx.apiKey
        · rw [if_neg (not_not_intro hkey)]
          by_cases hup : ctx.uploadOk
          · rw [if_neg (not_not_intro hup)]
            exact ⟨okStep_refl _, hI, fun h => by simp at h,
              fun _ => ⟨rfl, item, rfl, Or.inl hst⟩⟩
          · rw [if_pos hup]
            exact ⟨okStep_refl _, hI, fun h => by simp at h, fun h => by simp at h⟩
        · rw [if_pos hkey]
          exact ⟨okStep_refl _, hI, fun h => by simp at h, fun h => by simp at h⟩
    · have hg : ¬ (item.status = .completed ∨ item.status = .cancelled) := by
        rw [hst]; rintro (h | h) <;> cases h
      have hg2 : ¬ (item.status = .submitting) := by rw [hst]; intro h; cases h
      simp only [subTxn1, if_neg hg]
      by_cases href : (optStrTruthy item.torbox_ref).isSome
      · rw [if_pos href, if_neg hg2]
        exact ⟨okStep_refl _, hI, fun _ => Or.inl hst, fun h => by simp at h⟩
      · rw [if_neg href]
        by_cases hkey : ctx.apiKey
        · rw [if_neg (not_not_intro hkey)]
          by_cases hup : ctx.uploadOk
          · rw [if_neg (not_not_intro hup)]
            exact ⟨okStep_refl _, hI, fun h => by simp at h,
              fun _ => ⟨rfl, item, rfl, Or.inr hst⟩⟩
          · rw [if_pos hup]
            exact ⟨okStep_refl _, hI, fun h => by simp at h, fun h => by simp at h⟩
        · rw [if_pos hkey]
          exact ⟨okStep_refl _, hI, fun h => by simp at h, fun h => by simp at h⟩
    · simp only [subTxn1, if_pos (Or.inr hst)]
      exact ⟨okStep_refl _, hI, fun _ => Or.inr hst, fun h => by simp at h⟩

theorem subTxn2_spec (ref : String) (db : Option Job) (hP : StP PSub db) (hI : DbInv db) :
    okStep db (subTxn2 ref db) = true ∧ DbInv (subTxn2 ref db) ∧
    StP PRet (subTxn2 ref db) := by
  cases db with
  | none => exact ⟨rfl, trivial, trivial⟩
  | some it =>
    have hJ : JobInv it := hI
    rcases hP with hst | hst | hst
    · have hg : ¬ (it.status = .completed ∨ it.status = .cancelled) := by
        rw [hst]; rintro (h | h) <;> cases h
      simp only [subTxn2, if_neg hg]
      refine ⟨?_, ?_, Or.inl rfl⟩
      · simp [okStep, hst, allowedEdge, le_max_left]
      · refine ⟨fun _ => ?_, fun hdl => by simp at hdl⟩
        obtain ⟨hu, hp⟩ := hJ.1 (Or.inr (Or.inl hst))
        exact ⟨hu, by simp only [max_le_iff]; omega⟩
    · have hg : ¬ (it.status = .completed ∨ it.status = .cancelled) := by
        rw [hst]; rintro (h | h) <;> cases h
      simp only [subTxn2, if_neg hg]
      refine ⟨?_, ?_, Or.inl rfl⟩
      · simp [okStep, hst, le_max_left]
      · refine ⟨fun _ => ?_, fun hdl => by simp at hdl⟩
        obtain ⟨hu, hp⟩ := hJ.1 (Or.inr (Or.inr hst))
        exact ⟨hu, by simp only [max_le_iff]; omega⟩
    · simp only [subTxn2, if_pos (Or.inr hst)]
      exact ⟨okStep_refl _, hI, Or.inr hst⟩

theorem ensureSubmitted_good (ctx : SubmitCtx) (h0 : Option Job) (s : Sys)
    (hG : Good h0 s) (hP : StP PSub s.db) :
    Good h0 (ensureSubmitted ctx s).1 ∧
    ((ensureSubmitted ctx s).2 = .ok () → StP PRet (ensureSubmitted ctx s).1.db) := by
  have hG1 : Good h0 (checkpoint s) := good_checkpoint hG
  have hP1 : StP PSub (checkpoint s).db := stP_checkpoint PSub pSub_cancel s hP
  obtain ⟨hok, hinv, hret, hproc⟩ := subTxn1_spec ctx (checkpoint s).db hP1 (good_inv hG1)
  have hG2 : Good h0 (txn (fun db => (subTxn1 ctx db).1) (checkpoint s)) :=
    good_txn _ hok hinv hG1
  have hdb2 : (txn (fun db => (subTxn1 ctx db).1) (checkpoint s)).db =
      (subTxn1 ctx (checkpoint s).db).1 := txn_db _ _
  rcases hout : (subTxn1 ctx (checkpoint s).db).2 with _ | _ | _
  · -- .ret
    have : ensureSubmitted ctx s =
        (txn (fun db => (subTxn1 ctx db).1) (checkpoint s), .ok ()) := by
      simp only [ensureSubmitted, hout]
    rw [this]
    refine ⟨hG2, fun _ => ?_⟩
    rw [hdb2]
    exact hret hout
  · -- .raiseConf
    have : ensureSubmitted ctx s =
        (txn (fun db => (subTxn1 ctx db).1) (checkpoint s), .error .confErr) := by
      simp only [ensureSubmitted, hout]
    rw [this]
    exact ⟨hG2, fun h => by simp at h⟩
  · -- .raiseMissing
    have : ensureSubmitted ctx s =
        (txn (fun db => (subTxn1 ctx db).1) (checkpoint s), .error .missingContent) := by
      simp only [ensureSubmitted, hout]
    rw [this]
    exact ⟨hG2, fun h => by simp at h⟩
  · -- .proceed
    obtain ⟨hsame, item, hitem, hact⟩ := hproc hout
    have hP2 : StP PSub (txn (fun db => (subTxn1 ctx db).1) (checkpoint s)).db := by
      rw [hdb2, hsame, hitem]
      rcases hact with h | h
      · exact Or.inl h
      · exact Or.inr (Or.inl h)
    rcases hres : ctx.submitRes with m | ref
    · have : ensureSubmitted ctx s =
          (bumpCalls (txn (fun db => (subTxn1 ctx db).1) (checkpoint s)),
            .error (.providerErr m)) := by
        simp only [ensureSubmitted, hout, hres]
      rw [this]
      exact ⟨good_bumpCalls hG2, fun h => by simp at h⟩
    · have hrw : ensureSubmitted ctx s =
          (txn (subTxn2 ref)
            (checkpoint (bumpCalls (txn (fun db => (subTxn1 ctx db).1) (checkpoint s)))),
            .ok ()) := by
        simp only [ensureSubmitted, hout, hres]
      rw [hrw]
      have hG3 : Good h0 (checkpoint (bumpCalls (txn (fun db => (subTxn1 ctx db).1)
          (checkpoint s)))) :=
        good_checkpoint (good_bumpCalls hG2)
      have hP3 : StP PSub (checkpoint (bumpCalls (txn (fun db => (subTxn1 ctx db).1)
          (checkpoint s)))).db :=
        stP_checkpoint PSub pSub_cancel _ hP2
      obtain ⟨hok2, hinv2, hpost2⟩ := subTxn2_spec ref _ hP3 (good_inv hG3)
      refine ⟨good_txn _ hok2 hinv2 hG3, fun _ => ?_⟩
      rw [txn_db]
      exact hpost2

theorem pickTxn_spec (db : Option Job) (hI : DbInv db) :
    okStep db (pickTxn db).1 = true ∧ DbInv (pickTxn db).1 ∧
    (∀ id, (pickTxn db).2 = some id → StP PSub (pickTxn db).1) := by
  cases db with
  | none => exact ⟨rfl, trivial, fun _ _ => trivial⟩
  | some item =>
    have hJ : JobInv item := hI
    by_cases hq : item.status = .queued
    · simp only [pickTxn, if_pos hq]
      refine ⟨?_, ?_, fun _ _ => Or.inl rfl⟩
      · simp [okStep, hq, allowedEdge]
      · refine ⟨fun _ => hJ.1 (Or.inl hq), fun hdl => by simp at hdl⟩
    · simp only [pickTxn, if_neg hq]
      by_cases hsub : item.status = .submitted
      · rw [if_pos hsub]
        exact ⟨okStep_refl _, hI, fun _ _ => Or.inr (Or.inl hsub)⟩
      · rw [if_neg hsub]
        exact ⟨okStep_refl _, hI, fun _ h => by simp at h⟩

theorem failTxn_spec (msg : String) (db : Option Job) (hI : DbInv db) :
    okStep db (failTxn msg db) = true ∧ DbInv (failTxn msg db) := by
  cases db with
  | none => exact ⟨rfl, trivial⟩
  | some it =>
    by_cases hg : it.status = .completed ∨ it.status = .cancelled
    · simp only [failTxn, if_pos hg]
      exact ⟨okStep_refl _, hI⟩
    · simp only [failTxn, if_neg hg]
      constructor
      · rcases hst : it.status <;> simp_all [okStep, allowedEdge, isTerminal]
      · exact ⟨fun h => by simp at h, fun h => by simp at h⟩

theorem handleFail_good (e : WErr) (h0 : Option Job) (s : Sys) (hG : Good h0 s) :
    Good h0 (handleFail e s) := by
  unfold handleFail
  have hG1 : Good h0 (checkpoint s) := good_checkpoint hG
  obtain ⟨hok, hinv⟩ := failTxn_spec (errMsg e) (checkpoint s).db (good_inv hG1)
  exact good_txn _ hok hinv hG1

theorem dlTxn1_spec (ctx : DlCtx) (db : Option Job) (hP : StP PRet db) (hI : DbInv db) :
    okStep db (dlTxn1 ctx db).1 = true ∧ DbInv (dlTxn1 ctx db).1 ∧
    StP PRet (dlTxn1 ctx db).1 ∧
    (∀ r c f, (dlTxn1 ctx db).2 = .proceed r c f →
      (dlTxn1 ctx db).1 = db ∧ ∃ item, db = some item ∧ item.status = .submitted) := by
  cases db with
  | none => exact ⟨rfl, trivial, trivial, fun r c f h => by simp [dlTxn1] at h⟩
  | some item =>
    have hJ : JobInv item := hI
    rcases hP with hst | hst
    · have hg : ¬ (item.status = .completed ∨ item.status = .cancelled) := by
        rw [hst]; rintro (h | h) <;> cases h
      have hurl : item.torbox_download_url = none :=
        (hJ.1 (Or.inr (Or.inr hst))).1
      have hcond : ¬ ((optStrTruthy item.torbox_download_url).isSome = true ∧
          (optStrTruthy item.local_path).isSome = true ∧ ctx.localPathExists = true) := by
        rw [hurl]
        rintro ⟨h1, _⟩
        simp [optStrTruthy] at h1
      simp only [dlTxn1, if_neg hg, if_neg hcond]
      by_cases hkey : ctx.apiKey
      · rw [if_neg (not_not_intro hkey)]
        rcases href : optStrTruthy item.torbox_ref with _ | r
        · exact ⟨okStep_refl _, hI, Or.inl hst, fun r c f h => by simp at h⟩
        · exact ⟨okStep_refl _, hI, Or.inl hst, fun r c f _ => ⟨rfl, item, rfl, hst⟩⟩
      · rw [if_pos hkey]
        exact ⟨okStep_refl _, hI, Or.inl hst, fun r c f h => by simp at h⟩
    · simp only [dlTxn1, if_pos (Or.inr hst)]
      exact ⟨okStep_refl _, hI, Or.inr hst, fun r c f h => by simp at h⟩

theorem pollTxnB_spec (rep : Int) (db : Option Job) (hP : StP PRet db) (hI : DbInv db) :
    okStep db (pollTxnB rep db) = true ∧ DbInv (pollTxnB rep db) ∧
    StP PRet (pollTxnB rep db) := by
  cases db with
  | none => exact ⟨rfl, trivial, trivial⟩
  | some it =>
    have hJ : JobInv it := hI
    rcases hP with hst | hst
    · have hg : it.status = .submitted ∨ it.status = .downloading := Or.inl hst
      simp only [pollTxnB, if_pos hg]
      have hp95 : it.progress ≤ 95 := (hJ.1 (Or.inr (Or.inr hst))).2
      refine ⟨?_, ?_, Or.inl hst⟩
      · exact okStep_same rfl (le_min hp95 (le_max_left _ _))
      · refine ⟨fun _ => ⟨(hJ.1 (Or.inr (Or.inr hst))).1, min_le_left _ _⟩,
          fun hdl => ?_⟩
        have hcontra : it.status = Status.downloading := hdl
        rw [hst] at hcontra
        cases hcontra
    · have hg : ¬ (it.status = .submitted ∨ it.status = .downloading) := by
        rw [hst]; rintro (h | h) <;> cases h
      simp only [pollTxnB, if_neg hg]
      exact ⟨okStep_refl _, hI, Or.inr hst⟩

theorem pollLoop_good : ∀ (polls : List (Except String PollResp)) (h0 : Option Job) (s : Sys),
    Good h0 s → StP PRet s.db →
    Good h0 (pollLoop polls s).1 ∧ StP PRet (pollLoop polls s).1.db := by
  intro polls
  induction polls with
  | nil =>
    intro h0 s hG hP
    exact ⟨hG, hP⟩
  | cons p rest ih =>
    intro h0 s hG hP
    have hG1 : Good h0 (checkpoint s) := good_checkpoint hG
    have hP1 : StP PRet (checkpoint s).db := stP_checkpoint PRet pRet_cancel s hP
    rcases hdb : statusOf (checkpoint s).db with _ | st
    · simp only [pollLoop, hdb]
      exact ⟨hG1, hP1⟩
    · by_cases hcanc : st = Status.cancelled
      · subst hcanc
        simp only [pollLoop, hdb, if_pos rfl]
        exact ⟨hG1, hP1⟩
      · simp only [pollLoop, hdb, if_neg hcanc]
        cases p with
        | error m =>
          exact ⟨good_bumpCalls hG1, hP1⟩
        | ok r =>
          have hGb : Good h0 (bumpCalls (checkpoint s)) := good_bumpCalls hG1
          have hPb : StP PRet (bumpCalls (checkpoint s)).db := hP1
          rcases hb : r.is_ready with _ | _ <;>
            rcases hu : optStrTruthy r.download_url with _ | u
          · simp only [hb, hu]
            rcases hprog : r.progress with _ | rep
            · exact ih h0 _ hGb hPb
            · have hGc : Good h0 (checkpoint (bumpCalls (checkpoint s))) :=
                good_checkpoint hGb
              have hPc : StP PRet (checkpoint (bumpCalls (checkpoint s))).db :=
                stP_checkpoint PRet pRet_cancel _ hPb
              obtain ⟨hok, hinv, hpost⟩ := pollTxnB_spec rep _ hPc (good_inv hGc)
              refine ih h0 _ (good_txn _ hok hinv hGc) ?_
              rw [txn_db]
              exact hpost
          · simp only [hb, hu]
            rcases hprog : r.progress with _ | rep
            · exact ih h0 _ hGb hPb
            · have hGc : Good h0 (checkpoint (bumpCalls (checkpoint s))) :=
                good_checkpoint hGb
              have hPc : StP PRet (checkpoint (bumpCalls (checkpoint s))).db :=
                stP_checkpoint PRet pRet_cancel _ hPb
              obtain ⟨hok, hinv, hpost⟩ := pollTxnB_spec rep _ hPc (good_inv hGc)
              refine ih h0 _ (good_txn _ hok hinv hGc) ?_
              rw [txn_db]
              exact hpost
          · simp only [hb, hu]
            rcases hprog : r.progress with _ | rep
            · exact ih h0 _ hGb hPb
            · have hGc : Good h0 (checkpoint (bumpCalls (checkpoint s))) :=
                good_checkpoint hGb
              have hPc : StP PRet (checkpoint (bumpCalls (checkpoint s))).db :=
                stP_checkpoint PRet pRet_cancel _ hPb
              obtain ⟨hok, hinv, hpost⟩ := pollTxnB_spec rep _ hPc (good_inv hGc)
              refine ih h0 _ (good_txn _ hok hinv hGc) ?_
              rw [txn_db]
              exact hpost
          · simp only [hb, hu]
            exact ⟨hGb, hPb⟩

theorem dlTxn2_spec (u : String) (db : Option Job) (hP : StP PRet db) (hI : DbInv db) :
    okStep db (dlTxn2 u db).1 = true ∧ DbInv (dlTxn2 u db).1 ∧
    ((dlTxn2 u db).2 = true → StP PDl (dlTxn2 u db).1) := by
  cases db with
  | none => exact ⟨rfl, trivial, fun _ => trivial⟩
  | some it =>
    have hJ : JobInv it := hI
    rcases hP with hst | hst
    · have hg : ¬ (it.status = .completed ∨ it.status = .cancelled) := by
        rw [hst]; rintro (h | h) <;> cases h
      simp only [dlTxn2, if_neg hg]
      have hp95 : it.progress ≤ 95 := (hJ.1 (Or.inr (Or.inr hst))).2
      refine ⟨?_, ?_, fun _ => Or.inl rfl⟩
      · simp [okStep, hst, allowedEdge, le_max_left]
      · refine ⟨fun hpre => ?_, fun _ => ?_⟩
        · rcases hpre with h | h | h <;> cases h
        · simp only [max_le_iff]
          omega
    · simp only [dlTxn2, if_pos (Or.inr hst)]
      exact ⟨okStep_refl _, hI, fun h => by simp at h⟩

theorem streamTxnD_spec (pct : Option Int) (sp : Int) (db : Option Job)
    (hP : StP PDl db) (hI : DbInv db) :
    okStep db (streamTxnD pct sp db) = true ∧ DbInv (streamTxnD pct sp db) ∧
    StP PDl (streamTxnD pct sp db) := by
  cases db with
  | none => exact ⟨rfl, trivial, trivial⟩
  | some it =>
    have hJ : JobInv it := hI
    rcases hP with hst | hst
    · have hp99 : it.progress ≤ 99 := hJ.2 hst
      simp only [streamTxnD, if_pos hst]
      cases pct with
      | none =>
        refine ⟨okStep_same rfl le_rfl, ?_, Or.inl hst⟩
        refine ⟨fun hpre => ?_, fun _ => hp99⟩
        rcases hpre with h | h | h <;> (rw [hst] at h; cases h)
      | some pv =>
        refine ⟨okStep_same rfl (le_min hp99 (le_max_left _ _)), ?_, Or.inl hst⟩
        refine ⟨fun hpre => ?_, fun _ => min_le_left _ _⟩
        rcases hpre with h | h | h <;> (rw [hst] at h; cases h)
    · have hg : ¬ (it.status = .downloading) := by rw [hst]; intro h; cases h
      simp only [streamTxnD, if_neg hg]
      exact ⟨okStep_refl _, hI, Or.inr hst⟩

theorem clearSpeed_spec (db : Option Job) (hP : StP PDl db) (hI : DbInv db) :
    okStep db (clearSpeed db) = true ∧ DbInv (clearSpeed db) ∧ StP PDl (clearSpeed db) := by
  cases db with
  | none => exact ⟨rfl, trivial, trivial⟩
  | some it =>
    have hJ : JobInv it := hI
    refine ⟨okStep_same rfl le_rfl, ⟨fun hpre => hJ.1 hpre, fun hdl => hJ.2 hdl⟩, ?_⟩
    exact hP

theorem streamLoop_good : ∀ (chunks : List Chunk) (total got : Nat) (h0 : Option Job) (s : Sys),
    Good h0 s → StP PDl s.db →
    Good h0 (streamLoop chunks total got s).1 ∧
    StP PDl (streamLoop chunks total got s).1.db := by
  intro chunks
  induction chunks with
  | nil =>
    intro total got h0 s hG hP
    exact ⟨hG, hP⟩
  | cons c rest ih =>
    intro total got h0 s hG hP
    have hG1 : Good h0 (checkpoint s) := good_checkpoint hG
    have hP1 : StP PDl (checkpoint s).db := stP_checkpoint PDl pDl_cancel s hP
    rcases hdb : statusOf (checkpoint s).db with _ | st
    · simp only [streamLoop, hdb]
      exact ⟨hG1, hP1⟩
    · by_cases hcanc : st = Status.cancelled
      · subst hcanc
        simp only [streamLoop, hdb, if_pos rfl]
        exact ⟨hG1, hP1⟩
      · simp only [streamLoop, hdb, if_neg hcanc]
        by_cases hsz : c.size = 0
        · rw [if_pos hsz]
          exact ih total got h0 (checkpoint s) hG1 hP1
        · rw [if_neg hsz]
          have hG2 : Good h0 ({ checkpoint s with
              written := (checkpoint s).written + 1 } : Sys) := hG1
          have hP2 : StP PDl ({ checkpoint s with
              written := (checkpoint s).written + 1 } : Sys).db := hP1
          by_cases ht : c.tick
          · rw [if_pos (show c.tick = true from ht)]
            have hG3 : Good h0 (checkpoint ({ checkpoint s with
                written := (checkpoint s).written + 1 } : Sys)) := good_checkpoint hG2
            have hP3 : StP PDl (checkpoint ({ checkpoint s with
                written := (checkpoint s).written + 1 } : Sys)).db :=
              stP_checkpoint PDl pDl_cancel _ hP2
            obtain ⟨hok, hinv, hpost⟩ := streamTxnD_spec
              (if total > 0 then some (Int.ofNat (10 + (got + c.size) * 89 / total)) else none)
              c.speed _ hP3 (good_inv hG3)
            refine ih total (got + c.size) h0 _ (good_txn _ hok hinv hG3) ?_
            rw [txn_db]
            exact hpost
          · rw [if_neg ht]
            exact ih total (got + c.size) h0 _ hG2 hP2

theorem postProcessZip_trace (z : ZipCtx) (p : FPath) (s : Sys) :
    (postProcessZip z p s).2.trace = s.trace := by
  unfold postProcessZip
  repeat' split
  all_goals rfl

theorem good_postProcessZip {h0 : Option Job} (z : ZipCtx) (p : FPath) {s : Sys}
    (hG : Good h0 s) : Good h0 (postProcessZip z p s).2 := by
  unfold Good at hG ⊢
  rw [postProcessZip_db, postProcessZip_trace]
  exact hG

theorem downloadStream_good (ctx : StreamCtx) (p : FPath) (h0 : Option Job) (s : Sys)
    (hG : Good h0 s) (hP : StP PDl s.db) :
    Good h0 (downloadStream ctx p s).1 ∧ StP PDl (downloadStream ctx p s).1.db := by
  by_cases hh : ctx.httpOk
  · set q : FPath := (match ctx.cdName with
      | some raw =>
        if sanitizeFilename raw ≠ "" ∧ sanitizeFilename raw ≠ p.name then
          { dir := p.dir, name := sanitizeFilename raw }
        else p
      | none => p) with hq
    rcases hsl : streamLoop ctx.chunks ctx.total 0 s with ⟨s1, r⟩
    obtain ⟨hG1, hP1⟩ := streamLoop_good ctx.chunks ctx.total 0 h0 s hG hP
    rw [hsl] at hG1 hP1
    cases r with
    | error e =>
      have hres : downloadStream ctx p s = (s1, .error e) := by
        simp only [downloadStream, hh, hsl]
        simp
      rw [hres]
      exact ⟨hG1, hP1⟩
    | ok g =>
      rcases hppq : postProcessZip ctx.zip q
          (txn clearSpeed (checkpoint { s1 with renamedTo := some q })) with ⟨fp, s4⟩
      have hres : downloadStream ctx p s = (s4, .ok fp) := by
        simp only [downloadStream, hh, hsl, ← hq, hppq]
        simp
      rw [hres]
      have hG2 : Good h0 ({ s1 with renamedTo := some q } : Sys) := hG1
      have hP2 : StP PDl ({ s1 with renamedTo := some q } : Sys).db := hP1
      have hG3 : Good h0 (checkpoint ({ s1 with renamedTo := some q } : Sys)) :=
        good_checkpoint hG2
      have hP3 : StP PDl (checkpoint ({ s1 with renamedTo := some q } : Sys)).db :=
        stP_checkpoint PDl pDl_cancel _ hP2
      obtain ⟨hok, hinv, hpost⟩ := clearSpeed_spec _ hP3 (good_inv hG3)
      have hG4 : Good h0 (txn clearSpeed (checkpoint ({ s1 with renamedTo := some q } : Sys))) :=
        good_txn _ hok hinv hG3
      have hP4 : StP PDl (txn clearSpeed
          (checkpoint ({ s1 with renamedTo := some q } : Sys))).db := by
        rw [txn_db]
        exact hpost
      have hG5 := good_postProcessZip ctx.zip q hG4
      have hP5 : StP PDl (postProcessZip ctx.zip q (txn clearSpeed
          (checkpoint ({ s1 with renamedTo := some q } : Sys)))).2.db := by
        rw [postProcessZip_db]
        exact hP4
      rw [hppq] at hG5 hP5
      exact ⟨hG5, hP5⟩
  · have hh2 : ctx.httpOk = false := by simpa using hh
    have hres : downloadStream ctx p s = (s, .error (.httpErr "HTTPStatusError")) := by
      simp only [downloadStream, hh2]
      simp
    rw [hres]
    exact ⟨hG, hP⟩

theorem dlTxn4_spec (fp : FPath) (db : Option Job) (hP : StP PDl db) (hI : DbInv db) :
    okStep db (dlTxn4 fp db) = true ∧ DbInv (dlTxn4 fp db) := by
  cases db with
  | none => exact ⟨rfl, trivial⟩
  | some it =>
    have hJ : JobInv it := hI
    rcases hP with hst | hst
    · have hg : ¬ (it.status = .completed ∨ it.status = .cancelled) := by
        rw [hst]; rintro (h | h) <;> cases h
      have hp99 : it.progress ≤ 99 := hJ.2 hst
      simp only [dlTxn4, if_neg hg]
      constructor
      · have hp100 : it.progress ≤ (100 : Int) := by omega
        simp [okStep, hst, allowedEdge, hp100]
      · refine ⟨fun hpre => ?_, fun hdl => ?_⟩
        · rcases hpre with h | h | h <;> cases h
        · cases hdl
    · simp only [dlTxn4, if_pos (Or.inr hst)]
      exact ⟨okStep_refl _, hI⟩

theorem ensureDownloaded_good (ctx : DlCtx) (id : Nat) (h0 : Option Job) (s : Sys)
    (hG : Good h0 s) (hP : StP PRet s.db) :
    Good h0 (ensureDownloaded ctx id s).1 := by
  have hG1 : Good h0 (checkpoint s) := good_checkpoint hG
  have hP1 : StP PRet (checkpoint s).db := stP_checkpoint PRet pRet_cancel s hP
  obtain ⟨hok, hinv, hpost, hproc⟩ := dlTxn1_spec ctx (checkpoint s).db hP1 (good_inv hG1)
  have hG2 : Good h0 (txn (fun db => (dlTxn1 ctx db).1) (checkpoint s)) :=
    good_txn _ hok hinv hG1
  have hP2 : StP PRet (txn (fun db => (dlTxn1 ctx db).1) (checkpoint s)).db := by
    rw [txn_db]
    exact hpost
  rcases hout : (dlTxn1 ctx (checkpoint s).db).2 with _ | _ | ⟨r, c, f⟩
  · simp only [ensureDownloaded, hout]
    exact hG2
  · simp only [ensureDownloaded, hout]
    exact hG2
  · simp only [ensureDownloaded, hout]
    rcases hpl : pollLoop (ctx.polls.take 60) (txn (fun db => (dlTxn1 ctx db).1) (checkpoint s))
      with ⟨s3, po⟩
    obtain ⟨hG3, hP3⟩ := pollLoop_good (ctx.polls.take 60) h0 _ hG2 hP2
    rw [hpl] at hG3 hP3
    cases po with
    | timeout => exact hG3
    | aborted => exact hG3
    | raised m => exact hG3
    | url u =>
      have hG4 : Good h0 (checkpoint s3) := good_checkpoint hG3
      have hP4 : StP PRet (checkpoint s3).db := stP_checkpoint PRet pRet_cancel _ hP3
      obtain ⟨hok2, hinv2, hpost2⟩ := dlTxn2_spec u (checkpoint s3).db hP4 (good_inv hG4)
      have hG5 : Good h0 (txn (fun db => (dlTxn2 u db).1) (checkpoint s3)) :=
        good_txn _ hok2 hinv2 hG4
      have hP5 : (dlTxn2 u (checkpoint s3).db).2 = true →
          StP PDl (txn (fun db => (dlTxn2 u db).1) (checkpoint s3)).db := by
        intro hgv
        rw [txn_db]
        exact hpost2 hgv
      rcases hgv : (dlTxn2 u (checkpoint s3).db).2 with _ | _
      · simp only [hgv, Bool.false_eq_true, not_false_eq_true, if_true]
        exact hG5
      · simp only [hgv, not_true, if_false]
        split
        · next s6 e heq =>
            have hdsg : Good h0 (s6, Except.error (α := FPath) e).1 ∧
                StP PDl (s6, Except.error (α := FPath) e).1.db := by
              rw [← heq]
              exact downloadStream_good ctx.stream _ h0 _ hG5 (hP5 hgv)
            exact hdsg.1
        · next s6 fp heq =>
            have hdsg : Good h0 (s6, Except.ok (ε := WErr) fp).1 ∧
                StP PDl (s6, Except.ok (ε := WErr) fp).1.db := by
              rw [← heq]
              exact downloadStream_good ctx.stream _ h0 _ hG5 (hP5 hgv)
            obtain ⟨hG6, hP6⟩ := hdsg
            have hG7 : Good h0 (checkpoint s6) := good_checkpoint hG6
            have hP7 : StP PDl (checkpoint s6).db := stP_checkpoint PDl pDl_cancel _ hP6
            obtain ⟨hok4, hinv4⟩ := dlTxn4_spec fp (checkpoint s6).db hP7 (good_inv hG7)
            exact good_txn _ hok4 hinv4 hG7

/-- One `_process_one` tick preserves the master trace invariant. -/
theorem processOne_good (cs : SubmitCtx) (cd : DlCtx) (h0 : Option Job) (s : Sys)
    (hG : Good h0 s) : Good h0 (processOne cs cd s) := by
  have hG1 : Good h0 (checkpoint s) := good_checkpoint hG
  obtain ⟨hok, hinv, hpk⟩ := pickTxn_spec (checkpoint s).db (good_inv hG1)
  have hG2 : Good h0 (txn (fun db => (pickTxn db).1) (checkpoint s)) :=
    good_txn _ hok hinv hG1
  rcases hpick : (pickTxn (checkpoint s).db).2 with _ | id
  · simp only [processOne, hpick]
    exact hG2
  · simp only [processOne, hpick]
    have hPs : StP PSub (txn (fun db => (pickTxn db).1) (checkpoint s)).db := by
      rw [txn_db]
      exact hpk id hpick
    obtain ⟨hG3, hP3⟩ := ensureSubmitted_good cs h0 _ hG2 hPs
    split
    · next s3 e heq =>
        rw [heq] at hG3
        exact handleFail_good e h0 s3 hG3
    · next s3 u heq =>
        rw [heq] at hG3 hP3
        have hP3' : StP PRet (s3, Except.ok (ε := WErr) u).1.db := hP3 rfl
        have hG4 := ensureDownloaded_good cd id h0 s3 hG3 hP3'
        split
        · next s4 e heq2 =>
            rw [heq2] at hG4
            exact handleFail_good e h0 s4 hG4
        · next s4 u2 heq2 =>
            rw [heq2] at hG4
            exact hG4

/-- Any number of scheduler ticks preserves the master trace invariant. -/
theorem runWorker_good (ctxs : List (SubmitCtx × DlCtx)) (h0 : Option Job) (s : Sys)
    (hG : Good h0 s) : Good h0 (runWorker ctxs s) := by
  induction ctxs generalizing s with
  | nil => exact hG
  | cons c rest ih =>
    obtain ⟨cs, cd⟩ := c
    exact ih (processOne cs cd s) (processOne_good cs cd h0 s hG)

/-- History scan for claim C1: walking the trace left to right, `seenS`
(resp. `seenD`) records that a strictly earlier snapshot was `submitted`
(resp. `downloading`); every `downloading` snapshot must be preceded by a
`submitted` one and every `completed` snapshot by a `downloading` one. -/
def histGo : Bool → Bool → List (Option Job) → Bool
  | _, _, [] => true
  | seenS, seenD, db :: rest =>
    match statusOf db with
    | some .submitted => histGo true seenD rest
    | some .downloading => seenS && histGo seenS true rest
    | some .completed => seenD && histGo seenS seenD rest
    | _ => histGo seenS seenD rest

def histOk (l : List (Option Job)) : Bool := histGo false false l

theorem into_downloading {x y : Option Job} (h : okStep x y = true)
    (hy : statusOf y = some .downloading) :
    statusOf x = some .downloading ∨ statusOf x = some .submitted := by
  cases y with
  | none => simp [statusOf] at hy
  | some j2 =>
    have hj2 : j2.status = .downloading := by simpa [statusOf] using hy
    cases x with
    | none => simp [okStep] at h
    | some j =>
      cases hstat : j.status <;> simp [okStep, hstat, hj2, allowedEdge, isTerminal, statusOf] at h ⊢

theorem into_completed {x y : Option Job} (h : okStep x y = true)
    (hy : statusOf y = some .completed) :
    statusOf x = some .completed ∨ statusOf x = some .downloading := by
  cases y with
  | none => simp [statusOf] at hy
  | some j2 =>
    have hj2 : j2.status = .completed := by simpa [statusOf] using hy
    cases x with
    | none => simp [okStep] at h
    | some j =>
      cases hstat : j.status <;> simp [okStep, hstat, hj2, allowedEdge, isTerminal, statusOf] at h ⊢

theorem histGo_ok : ∀ (l : List (Option Job)) (seenS seenD : Bool),
    List.Chain' (fun a b => okStep a b = true) l →
    (∀ db, l.head? = some db →
       (statusOf db = some Status.downloading → seenS = true) ∧
       (statusOf db = some Status.completed → seenD = true)) →
    histGo seenS seenD l = true := by
  intro l
  induction l with
  | nil => intro seenS seenD _ _; rfl
  | cons db rest ih =>
    intro seenS seenD hch hhd
    obtain ⟨hdl, hcp⟩ := hhd db rfl
    have hch' : List.Chain' (fun a b => okStep a b = true) rest := hch.tail
    have hstep : ∀ db2, rest.head? = some db2 → okStep db db2 = true := by
      intro db2 h2
      exact (List.chain'_cons'.mp hch).1 db2 (Option.mem_def.mpr h2)
    rcases hs : statusOf db with _ | st
    · simp only [histGo, hs]
      refine ih seenS seenD hch' ?_
      intro db2 h2
      have hok := hstep db2 h2
      constructor
      · intro hd2
        rcases into_downloading hok hd2 with hx | hx <;> rw [hs] at hx <;> exact absurd hx (by simp)
      · intro hd2
        rcases into_completed hok hd2 with hx | hx <;> rw [hs] at hx <;> exact absurd hx (by simp)
    · cases st with
      | submitted =>
        simp only [histGo, hs]
        refine ih true seenD hch' ?_
        intro db2 h2
        have hok := hstep db2 h2
        refine ⟨fun _ => rfl, fun hd2 => ?_⟩
        rcases into_completed hok hd2 with hx | hx <;> rw [hs] at hx <;> simp at hx
      | downloading =>
        simp only [histGo, hs, hdl hs, Bool.true_and]
        refine ih true true hch' ?_
        intro db2 h2
        exact ⟨fun _ => rfl, fun _ => rfl⟩
      | completed =>
        simp only [histGo, hs, hcp hs, Bool.true_and]
        refine ih seenS true hch' ?_
        intro db2 h2
        have hok := hstep db2 h2
        constructor
        · intro hd2
          rcases into_downloading hok hd2 with hx | hx <;> rw [hs] at hx <;> simp at hx
        · intro _
          rfl
      | queued =>
        simp only [histGo, hs]
        refine ih seenS seenD hch' ?_
        intro db2 h2
        have hok := hstep db2 h2
        constructor
        · intro hd2
          rcases into_downloading hok hd2 with hx | hx <;> rw [hs] at hx <;> simp at hx
        · intro hd2
          rcases into_completed hok hd2 with hx | hx <;> rw [hs] at hx <;> simp at hx
      | submitting =>
        simp only [histGo, hs]
        refine ih seenS seenD hch' ?_
        intro db2 h2
        have hok := hstep db2 h2
        constructor
        · intro hd2
          rcases into_downloading hok hd2 with hx | hx <;> rw [hs] at hx <;> simp at hx
        · intro hd2
          rcases into_completed hok hd2 with hx | hx <;> rw [hs] at hx <;> simp at hx
      | failed =>
        simp only [histGo, hs]
        refine ih seenS seenD hch' ?_
        intro db2 h2
        have hok := hstep db2 h2
        constructor
        · intro hd2
          rcases into_downloading hok hd2 with hx | hx <;> rw [hs] at hx <;> simp at hx
        · intro hd2
          rcases into_completed hok hd2 with hx | hx <;> rw [hs] at hx <;> simp at hx
      | cancelled =>
        simp only [histGo, hs]
        refine ih seenS seenD hch' ?_
        intro db2 h2
        have hok := hstep db2 h2
        constructor
        · intro hd2
          rcases into_downloading hok hd2 with hx | hx <;> rw [hs] at hx <;> simp at hx
        · intro hd2
          rcases into_completed hok hd2 with hx | hx <;> rw [hs] at hx <;> simp at hx

theorem histOk_of_chain (l : List (Option Job)) (h0 : Option Job)
    (hch : List.Chain' (fun a b => okStep a b = true) l)
    (hhd : l.head? = some h0) (hq : statusOf h0 = some .queued) :
    histOk l = true := by
  refine histGo_ok l false false hch ?_
  intro db h2
  rw [hhd] at h2
  cases h2
  constructor
  · intro hx
    rw [hq] at hx
    simp at hx
  · intro hx
    rw [hq] at hx
    simp at hx

theorem statusStep_of_okStep {x y : Option Job} (h : okStep x y = true) :
    statusStep x y = true := by
  cases x <;> cases y <;> simp_all [okStep, statusStep]

theorem progStep_of_okStep {x y : Option Job} (h : okStep x y = true) :
    progStep x y = true := by
  cases x <;> cases y <;> simp_all [okStep, progStep]

theorem good_init (j : Job) (env : List EnvAct) (hI : JobInv j) :
    Good (some j) (initSys j env) :=
  ⟨by simp [initSys], by simp [initSys], by simp [initSys],
   by simp [initSys, List.chain'_singleton], hI⟩

theorem newJob_inv (id : Nat) (fn : String) (st : SourceType) (cat : Option String) :
    JobInv (newJob id fn st cat) := by
  constructor
  · intro _
    exact ⟨rfl, by simp [newJob]⟩
  · intro h
    simp [newJob] at h

/-- C1: along every trace the worker and the cancel/delete endpoints produce
from a freshly queued job, consecutive row snapshots either keep the status
or move along one of the enumerated edges
(`queued→submitting`, `submitting→submitted`, `submitted→downloading`,
`downloading→completed`, non-terminal→`failed`, non-terminal→`cancelled`);
moreover no snapshot is `downloading` without an earlier `submitted`
snapshot and none is `completed` without an earlier `downloading` one. -/
theorem c1_status_machine (id : Nat) (fn : String) (st : SourceType)
    (cat : Option String) (ctxs : List (SubmitCtx × DlCtx)) (env : List EnvAct) :
    List.Chain' (fun a b => statusStep a b = true)
      (runWorker ctxs (initSys (newJob id fn st cat) env)).trace ∧
    histOk (runWorker ctxs (initSys (newJob id fn st cat) env)).trace = true := by
  have hG : Good (some (newJob id fn st cat))
      (runWorker ctxs (initSys (newJob id fn st cat) env)) :=
    runWorker_good ctxs _ _ (good_init _ env (newJob_inv id fn st cat))
  obtain ⟨_, hhd, _, hch, _⟩ := hG
  constructor
  · exact hch.imp (fun a b h => statusStep_of_okStep h)
  · exact histOk_of_chain _ _ hch hhd (by simp [newJob, statusOf])

/-- C6: along every trace the worker and the cancel/delete endpoints produce
from a freshly queued job, whenever a snapshot's status is non-terminal the
next snapshot's progress is greater than or equal to it: progress never
regresses before a terminal state is reached. -/
theorem c6_progress_monotone (id : Nat) (fn : String) (st : SourceType)
    (cat : Option String) (ctxs : List (SubmitCtx × DlCtx)) (env : List EnvAct) :
    List.Chain' (fun a b => progStep a b = true)
      (runWorker ctxs (initSys (newJob id fn st cat) env)).trace := by
  have hG : Good (some (newJob id fn st cat))
      (runWorker ctxs (initSys (newJob id fn st cat) env)) :=
    runWorker_good ctxs _ _ (good_init _ env (newJob_inv id fn st cat))
  exact hG.2.2.2.1.imp (fun a b h => progStep_of_okStep h)
